import Mathlib

/-!
# Verification of the Chat_Me websocket hub

Shallow embedding of the room-based broadcast hub of the Chat_Me
repository (backend/src/websocket.ts together with the room-deletion
route of backend/index.ts) and proofs of the membership, retention,
broadcast-targeting and error-handling properties stated in the
specification.

The hub state is embedded as follows.

* `roomConnections` (websocket.ts line 34, a `Map<string, Set<ws>>`)
  becomes an association list from room ids to insertion-ordered lists of
  connection ids; `Map.set`/`Map.delete`/`Set.add`/`Set.delete` become
  the corresponding pure operations `assocSet`, `assocDelete`, `setAdd`,
  `setDelete` which preserve JavaScript insertion-order semantics.
* each live `ServerWebSocket<WebSocketData>` object becomes an entry of
  `conns`, keyed by a numeric connection id; its mutable `ws.data`
  record becomes the `Conn` structure.
* the Prisma message table becomes the list `store`, in insertion order.
  Generated cuid ids and `createdAt` timestamps are idealized as the
  strictly increasing insertion counter `nextId`, so both are fresh on
  every insert and message creation order coincides with `createdAt`
  order.  `orderBy: \x7b createdAt: "desc" \x7d` is embedded as an
  insertion sort by descending `createdAt`.
* JavaScript truthiness of `ws.data.roomId : string | null` is embedded
  exactly: `null` and the empty string are falsy (`truthy`).
* `ws.send` on a closed or broken channel returns an error code that the
  source discards, so a broken peer channel is invisible to the hub; the
  `broken` field of the state records which channels are currently
  broken (an environment fact the hub never consults).
-/

set_option maxHeartbeats 1000000

namespace Chat

/-- Wire-level message payload (websocket.ts, `interface MessageData`).
Message ids and ISO-8601 `createdAt` strings are idealized as the
store's insertion counter. -/
structure MessageData where
  id : Nat
  content : String
  username : String
  createdAt : Nat
deriving DecidableEq, Repr

/-- A row of the Prisma message table.  The `username` column lives on
the joined user record (`include: \x7b user: \x7b select: \x7b username \x7d \x7d \x7d`);
user records never change while the server runs, so it is carried
inline. -/
structure Msg where
  id : Nat
  content : String
  userId : String
  username : String
  roomId : String
  createdAt : Nat
deriving DecidableEq, Repr

/-- Projection from a stored message to its wire shape (the mapping done
at websocket.ts lines 135-140 and 210-215). -/
def Msg.toData (m : Msg) : MessageData :=
  { id := m.id, content := m.content, username := m.username, createdAt := m.createdAt }

/-- Per-connection mutable data (websocket.ts, `interface WebSocketData`). -/
structure Conn where
  userId : String
  username : String
  roomId : Option String
deriving DecidableEq, Repr

/-- A row of the Prisma room table; display name and creation time are
never consulted by the hub. -/
structure RoomRec where
  id : String
  creatorId : String
deriving DecidableEq, Repr

/-- Outbound frames: websocket.ts `type ServerMessage` plus the
`ROOM_DELETED` frame emitted by index.ts `handleDeleteRoom`. -/
inductive ServerMessage where
  | ROOM_JOINED (roomId : String) (messages : List MessageData)
  | ROOM_LEFT
  | NEW_MESSAGE (message : MessageData)
  | USER_JOINED (username : String)
  | USER_LEFT (username : String)
  | ROOM_DELETED (roomId : String)
  | ERROR (message : String)
deriving DecidableEq, Repr

/-- An attempted delivery: target connection id and frame. -/
abbrev Event := Nat × ServerMessage

/-- The complete mutable state of the backend. -/
structure State where
  /-- live websocket connections, keyed by connection id -/
  conns : List (Nat × Conn)
  /-- websocket.ts line 34: `roomConnections` -/
  roomConnections : List (String × List Nat)
  /-- the Prisma room table -/
  dbRooms : List RoomRec
  /-- the Prisma message table, in insertion order -/
  store : List Msg
  /-- insertion counter: source of fresh ids and timestamps -/
  nextId : Nat
  /-- connection ids whose peer channel is broken (environment fact) -/
  broken : List Nat
deriving DecidableEq, Repr

/-! ## Map and Set primitives (JavaScript semantics) -/

/-- `Map.get`: first entry with the given key. -/
def assocLookup {κ β : Type} [DecidableEq κ] : List (κ × β) → κ → Option β
  | [], _ => none
  | (k1, v) :: rest, k => if k1 = k then some v else assocLookup rest k

/-- `Map.set`: replace the entry in place, or append a fresh one. -/
def assocSet {κ β : Type} [DecidableEq κ] : List (κ × β) → κ → β → List (κ × β)
  | [], k, v => [(k, v)]
  | (k1, v1) :: rest, k, v =>
      if k1 = k then (k, v) :: rest else (k1, v1) :: assocSet rest k v

/-- `Map.delete`: drop the entry with the given key. -/
def assocDelete {κ β : Type} [DecidableEq κ] : List (κ × β) → κ → List (κ × β)
  | [], _ => []
  | (k1, v1) :: rest, k =>
      if k1 = k then rest else (k1, v1) :: assocDelete rest k

/-- `Set.add`: append if not already present. -/
def setAdd {α : Type} [DecidableEq α] (s : List α) (x : α) : List α :=
  if x ∈ s then s else s ++ [x]

/-- `Set.delete`: remove the element. -/
def setDelete {α : Type} [DecidableEq α] (s : List α) (x : α) : List α :=
  s.filter (fun y => decide (y ≠ x))

/-- JavaScript truthiness of a `string | null` value: `null` and the
empty string are falsy. -/
def truthy : Option String → Bool
  | none => false
  | some s => decide (s ≠ "")

/-- JavaScript `String.prototype.trim`: strip leading and trailing
whitespace. -/
def jsTrim (s : String) : String :=
  ⟨((s.data.dropWhile Char.isWhitespace).reverse.dropWhile Char.isWhitespace).reverse⟩

/-! ## Derived read-only views -/

/-- The messages of one room, in insertion (= creation) order:
`db.message` rows `where: \x7b roomId \x7d`. -/
def roomMsgs (s : State) (roomId : String) : List Msg :=
  s.store.filter (fun m => decide (m.roomId = roomId))

/-- `db.message.findMany(\x7b where: \x7b roomId \x7d, orderBy: \x7b createdAt: "desc" \x7d \x7d)`:
the room's messages sorted by descending creation time. -/
def messagesDesc (s : State) (roomId : String) : List Msg :=
  List.insertionSort (fun a b => b.createdAt ≤ a.createdAt) (roomMsgs s roomId)

/-- `ws.data.roomId` of a connection (none when the connection does not exist). -/
def connCurrentRoom (s : State) (ws : Nat) : Option String :=
  (assocLookup s.conns ws).bind (fun c => c.roomId)

/-- The member list of a room as tracked by `roomConnections`. -/
def roomMembers (s : State) (roomId : String) : List Nat :=
  (assocLookup s.roomConnections roomId).getD []

/-- Whether a connection is in a room's member set. -/
def isMember (s : State) (roomId : String) (ws : Nat) : Bool :=
  (roomMembers s roomId).contains ws

/-- Whether the peer channel of a connection is broken, so that a
delivery to it fails.  The hub never consults this: `ws.send`'s return
value is discarded at websocket.ts lines 270 and 284. -/
def deliveryFails (s : State) (ws : Nat) : Bool :=
  s.broken.contains ws

/-! ## The operations (websocket.ts and index.ts) -/

/-- websocket.ts `broadcast` (lines 259-273): deliver to every member of
the room except the originating connection.  The send return value is
ignored, so nothing else happens. -/
def broadcast (s : State) (ws : Nat) (roomId : String) (data : ServerMessage) :
    State × List Event :=
  match assocLookup s.roomConnections roomId with
  | none => (s, [])
  | some conns => (s, (conns.filter (fun c => decide (c ≠ ws))).map (fun c => (c, data)))

/-- websocket.ts `broadcastToRoom` (lines 278-286): deliver to every
member of the room including the sender. -/
def broadcastToRoom (s : State) (roomId : String) (data : ServerMessage) :
    State × List Event :=
  match assocLookup s.roomConnections roomId with
  | none => (s, [])
  | some conns => (s, conns.map (fun c => (c, data)))

/-- websocket.ts `leaveRoom` (lines 162-180).  `if (!roomId) return;`
is a JavaScript truthiness test, so a `null` or empty-string roomId is
an immediate no-op. -/
def leaveRoom (s : State) (ws : Nat) : State × List Event :=
  match assocLookup s.conns ws with
  | none => (s, [])
  | some c =>
    match c.roomId with
    | none => (s, [])
    | some roomId =>
      if roomId = "" then (s, [])
      else
        let br := broadcast s ws roomId (.USER_LEFT c.username)
        let s1 := br.1
        let evs1 := br.2
        let s2 : State := { s1 with conns := assocSet s1.conns ws { c with roomId := none } }
        let s3 : State :=
          match assocLookup s2.roomConnections roomId with
          | none => s2
          | some ms =>
              { s2 with roomConnections := assocSet s2.roomConnections roomId (setDelete ms ws) }
        let s4 : State :=
          match assocLookup s3.roomConnections roomId with
          | some ms =>
              if ms.length = 0 then
                { s3 with roomConnections := assocDelete s3.roomConnections roomId }
              else s3
          | none => s3
        (s4, evs1 ++ [(ws, .ROOM_LEFT)])

/-- websocket.ts `joinRoom` (lines 110-157).  Note the source order: the
current room is left FIRST (lines 112-114), and only then is the target
room's existence checked (lines 117-124). -/
def joinRoom (s : State) (ws : Nat) (roomId : String) : State × List Event :=
  match assocLookup s.conns ws with
  | none => (s, [])
  | some c0 =>
    let lv := if truthy c0.roomId then leaveRoom s ws else (s, [])
    let s1 := lv.1
    let evs1 := lv.2
    match s1.dbRooms.find? (fun rm => decide (rm.id = roomId)) with
    | none => (s1, evs1 ++ [(ws, .ERROR "Room not found")])
    | some _ =>
      let messages := (messagesDesc s1 roomId).take 50
      let messageData := messages.reverse.map Msg.toData
      let s2 : State := { s1 with conns := assocSet s1.conns ws { c0 with roomId := some roomId } }
      let ms := (assocLookup s2.roomConnections roomId).getD []
      let s3 : State := { s2 with roomConnections := assocSet s2.roomConnections roomId (setAdd ms ws) }
      let evs2 : List Event := [(ws, .ROOM_JOINED roomId messageData)]
      let br := broadcast s3 ws roomId (.USER_JOINED c0.username)
      (br.1, evs1 ++ evs2 ++ br.2)

/-- The message record built by `db.message.create` at websocket.ts
lines 201-208: trimmed content, fresh id and timestamp. -/
def newMsg (s : State) (c : Conn) (roomId content : String) : Msg :=
  { id := s.nextId, content := jsTrim content, userId := c.userId,
    username := c.username, roomId := roomId, createdAt := s.nextId }

/-- websocket.ts `cleanupOldMessages` (lines 227-240): collect the ids
of the room's messages beyond the 50 most recent and delete those rows. -/
def cleanupOldMessages (s : State) (roomId : String) : State :=
  let messages := (messagesDesc s roomId).drop 50
  if messages.length > 0 then
    { s with store := s.store.filter (fun m => decide (m.id ∉ messages.map Msg.id)) }
  else s

/-- websocket.ts `sendMessage` (lines 185-222).  Both guards are
truthiness tests: `if (!roomId)` and `if (!content.trim())`. -/
def sendMessage (s : State) (ws : Nat) (content : String) : State × List Event :=
  match assocLookup s.conns ws with
  | none => (s, [])
  | some c =>
    match c.roomId with
    | none => (s, [(ws, .ERROR "Not in a room")])
    | some roomId =>
      if roomId = "" then (s, [(ws, .ERROR "Not in a room")])
      else if jsTrim content = "" then (s, [(ws, .ERROR "Message cannot be empty")])
      else
        let message := newMsg s c roomId content
        let s1 : State := { s with store := s.store ++ [message], nextId := s.nextId + 1 }
        let br := broadcastToRoom s1 roomId (.NEW_MESSAGE message.toData)
        let s3 := cleanupOldMessages br.1 roomId
        (s3, br.2)

/-- websocket.ts `handleClose` (lines 67-73); afterwards the transport
destroys the socket object, embedded as removing the connection from the
live set (and its channel from the broken set). -/
def handleClose (s : State) (ws : Nat) : State × List Event :=
  match assocLookup s.conns ws with
  | none => (s, [])
  | some c =>
    let lv := if truthy c.roomId then leaveRoom s ws else (s, [])
    ({ lv.1 with conns := assocDelete lv.1.conns ws, broken := setDelete lv.1.broken ws }, lv.2)

/-- index.ts `handleDeleteRoom` (lines 180-204), after token
verification: `requesterId` is the verified token's userId.
`db.room.delete` removes the room row; its message rows go with it
(Modelled from the spec: the Prisma schema file is not under src/, and
spec section 3 states messages are deleted only by retention trimming or
room deletion).  Neither `roomConnections` nor any `ws.data.roomId` is
touched. -/
def handleDeleteRoom (s : State) (requesterId : String) (roomId : String) :
    State × List Event :=
  match s.dbRooms.find? (fun rm => decide (rm.id = roomId)) with
  | none => (s, [])
  | some room =>
    if room.creatorId ≠ requesterId then (s, [])
    else
      let br := broadcastToRoom s roomId (.ROOM_DELETED roomId)
      ({ br.1 with dbRooms := br.1.dbRooms.filter (fun rm => decide (rm.id ≠ roomId)),
                   store := br.1.store.filter (fun m => decide (m.roomId ≠ roomId)) }, br.2)

/-- index.ts websocket upgrade handler: a newly authenticated connection
starts with `roomId: null`. -/
def connect (s : State) (ws : Nat) (userId username : String) : State :=
  match assocLookup s.conns ws with
  | some _ => s
  | none =>
      { s with conns := assocSet s.conns ws { userId := userId, username := username, roomId := none } }

/-- index.ts `handleCreateRoom` after validation: Prisma assigns a
fresh, nonempty cuid id to the new room row. -/
def createRoom (s : State) (rid creatorId : String) : State :=
  if rid = "" then s
  else
    match s.dbRooms.find? (fun rm => decide (rm.id = rid)) with
    | some _ => s
    | none => { s with dbRooms := s.dbRooms ++ [{ id := rid, creatorId := creatorId }] }

/-- Environment action: the peer channel of a connection breaks before
its close event has fired.  The hub does not observe this. -/
def breakChannel (s : State) (ws : Nat) : State :=
  { s with broken := setAdd s.broken ws }

/-! ## Reachable states -/

/-- One atomic interaction with the backend. -/
inductive Op where
  | connect (ws : Nat) (userId username : String)
  | join (ws : Nat) (roomId : String)
  | leave (ws : Nat)
  | send (ws : Nat) (content : String)
  | close (ws : Nat)
  | create (rid creatorId : String)
  | delete (requesterId roomId : String)
  | chanBreak (ws : Nat)
deriving Repr

/-- Dispatch of one operation (the `handleMessage` switch for `join`,
`leave`, `send`; the close handler; the HTTP routes; the environment). -/
def applyOp (s : State) : Op → State × List Event
  | .connect ws u n => (connect s ws u n, [])
  | .join ws r => joinRoom s ws r
  | .leave ws => leaveRoom s ws
  | .send ws content => sendMessage s ws content
  | .close ws => handleClose s ws
  | .create rid creator => (createRoom s rid creator, [])
  | .delete req rid => handleDeleteRoom s req rid
  | .chanBreak ws => (breakChannel s ws, [])

/-- The state after one operation. -/
def stepState (s : State) (op : Op) : State := (applyOp s op).1

/-- The empty server: no connections, no rooms, no messages. -/
def initState : State :=
  { conns := [], roomConnections := [], dbRooms := [], store := [], nextId := 0, broken := [] }

/-- Run a sequence of operations from the empty server. -/
def runOps (ops : List Op) : State := ops.foldl stepState initState

/-- The reachable registry states. -/
inductive Reachable : State → Prop where
  | init : Reachable initState
  | step (s : State) (op : Op) : Reachable s → Reachable (stepState s op)

/-- Every state produced by a run of operations is reachable. -/
theorem reachable_runOps (ops : List Op) : Reachable (runOps ops) := by
  have h : ∀ (l : List Op) (s : State), Reachable s → Reachable (l.foldl stepState s) := by
    intro l
    induction l with
    | nil => intro s hs; exact hs
    | cons op rest ih => intro s hs; exact ih (stepState s op) (Reachable.step s op hs)
  exact h ops initState Reachable.init

/-! ## Lemmas about the map and set primitives -/

theorem assocLookup_set {κ β : Type} [DecidableEq κ] (m : List (κ × β)) (k k1 : κ) (v : β) :
    assocLookup (assocSet m k v) k1 = if k1 = k then some v else assocLookup m k1 := by
  induction m with
  | nil =>
    by_cases h : k = k1
    · simp [assocSet, assocLookup, h]
    · simp [assocSet, assocLookup, h, Ne.symm h]
  | cons e rest ih =>
    obtain ⟨k2, v2⟩ := e
    by_cases h2 : k2 = k
    · subst h2
      by_cases h : k2 = k1
      · simp [assocSet, assocLookup, h]
      · simp [assocSet, assocLookup, h, Ne.symm h]
    · by_cases h : k2 = k1
      · subst h
        simp [assocSet, assocLookup, h2, Ne.symm h2]
      · simp [assocSet, assocLookup, h2, h, Ne.symm h, ih]

theorem assocDelete_sublist {κ β : Type} [DecidableEq κ] (m : List (κ × β)) (k : κ) :
    List.Sublist (assocDelete m k) m := by
  induction m with
  | nil => simp [assocDelete]
  | cons e rest ih =>
    obtain ⟨k1, v1⟩ := e
    by_cases h : k1 = k
    · simp only [assocDelete, if_pos h]
      exact List.sublist_cons_self (k1, v1) rest
    · simp only [assocDelete, if_neg h]
      exact List.Sublist.cons₂ (k1, v1) ih

theorem assocLookup_delete_ne {κ β : Type} [DecidableEq κ] (m : List (κ × β)) (k k1 : κ)
    (h : k1 ≠ k) : assocLookup (assocDelete m k) k1 = assocLookup m k1 := by
  induction m with
  | nil => rfl
  | cons e rest ih =>
    obtain ⟨k2, v2⟩ := e
    by_cases h2 : k2 = k
    · subst h2
      simp [assocDelete, assocLookup, Ne.symm h]
    · by_cases h1 : k2 = k1
      · simp [assocDelete, assocLookup, h2, h1, h]
      · simp [assocDelete, assocLookup, h2, h1, ih]

theorem assocLookup_eq_none {κ β : Type} [DecidableEq κ] (m : List (κ × β)) (k : κ) :
    assocLookup m k = none ↔ k ∉ m.map Prod.fst := by
  induction m with
  | nil => simp [assocLookup]
  | cons e rest ih =>
    obtain ⟨k1, v1⟩ := e
    by_cases h : k1 = k
    · subst h; simp [assocLookup]
    · simp only [assocLookup, if_neg h, List.map_cons, List.mem_cons]
      rw [ih]
      constructor
      · intro hn hor
        rcases hor with hor | hor
        · exact h hor.symm
        · exact hn hor
      · intro hn hm
        exact hn (Or.inr hm)

theorem assocLookup_delete_self {κ β : Type} [DecidableEq κ] (m : List (κ × β)) (k : κ)
    (h : (m.map Prod.fst).Nodup) : assocLookup (assocDelete m k) k = none := by
  induction m with
  | nil => rfl
  | cons e rest ih =>
    obtain ⟨k1, v1⟩ := e
    simp only [List.map_cons, List.nodup_cons] at h
    by_cases h1 : k1 = k
    · subst h1
      simp only [assocDelete, if_pos rfl]
      rw [assocLookup_eq_none]
      exact h.1
    · simp only [assocDelete, if_neg h1, assocLookup, if_neg h1]
      exact ih h.2

theorem assocSet_keys {κ β : Type} [DecidableEq κ] (m : List (κ × β)) (k : κ) (v : β) :
    (assocSet m k v).map Prod.fst =
      if k ∈ m.map Prod.fst then m.map Prod.fst else m.map Prod.fst ++ [k] := by
  induction m with
  | nil => simp [assocSet]
  | cons e rest ih =>
    obtain ⟨k1, v1⟩ := e
    by_cases h : k1 = k
    · subst h; simp [assocSet]
    · simp only [assocSet, if_neg h, List.map_cons, ih]
      by_cases hm : k ∈ rest.map Prod.fst
      · rw [if_pos hm, if_pos]
        simp [hm]
      · rw [if_neg hm, if_neg]
        · simp
        · simp only [List.mem_cons]
          intro hc
          rcases hc with hc | hc
          · exact h hc.symm
          · exact hm hc

theorem assocSet_keys_nodup {κ β : Type} [DecidableEq κ] (m : List (κ × β)) (k : κ) (v : β)
    (h : (m.map Prod.fst).Nodup) : ((assocSet m k v).map Prod.fst).Nodup := by
  rw [assocSet_keys]
  by_cases hm : k ∈ m.map Prod.fst
  · rwa [if_pos hm]
  · rw [if_neg hm]
    simp only [List.nodup_append, List.nodup_cons]
    refine ⟨h, by simp, ?_⟩
    intro a ha hb
    simp only [List.mem_singleton] at hb
    exact hm (hb ▸ ha)

theorem assocDelete_keys_nodup {κ β : Type} [DecidableEq κ] (m : List (κ × β)) (k : κ)
    (h : (m.map Prod.fst).Nodup) : ((assocDelete m k).map Prod.fst).Nodup :=
  h.sublist ((assocDelete_sublist m k).map Prod.fst)

theorem mem_setAdd {α : Type} [DecidableEq α] (s : List α) (x y : α) :
    y ∈ setAdd s x ↔ y ∈ s ∨ y = x := by
  unfold setAdd
  by_cases h : x ∈ s
  · rw [if_pos h]
    constructor
    · exact Or.inl
    · intro hy; rcases hy with hy | hy
      · exact hy
      · exact hy ▸ h
  · rw [if_neg h]; simp

theorem setAdd_nodup {α : Type} [DecidableEq α] (s : List α) (x : α) (h : s.Nodup) :
    (setAdd s x).Nodup := by
  unfold setAdd
  by_cases hm : x ∈ s
  · rwa [if_pos hm]
  · rw [if_neg hm]
    simp only [List.nodup_append, List.nodup_cons]
    refine ⟨h, by simp, ?_⟩
    intro a ha hb
    simp only [List.mem_singleton] at hb
    exact hm (hb ▸ ha)

theorem setAdd_ne_nil {α : Type} [DecidableEq α] (s : List α) (x : α) : setAdd s x ≠ [] := by
  unfold setAdd
  by_cases hm : x ∈ s
  · rw [if_pos hm]
    intro h
    exact (List.not_mem_nil x) (h ▸ hm)
  · rw [if_neg hm]
    simp

theorem mem_setDelete {α : Type} [DecidableEq α] (s : List α) (x y : α) :
    y ∈ setDelete s x ↔ y ∈ s ∧ y ≠ x := by
  simp [setDelete]

theorem setDelete_nodup {α : Type} [DecidableEq α] (s : List α) (x : α) (h : s.Nodup) :
    (setDelete s x).Nodup :=
  h.filter _

/-! ## Lemmas about the descending sort -/

theorem orderedInsert_eq_append {α : Type} (r : α → α → Prop) [DecidableRel r] (a : α)
    (l : List α) (h : ∀ b ∈ l, ¬ r a b) : List.orderedInsert r a l = l ++ [a] := by
  induction l with
  | nil => rfl
  | cons b t ih =>
    simp only [List.orderedInsert]
    rw [if_neg (h b (List.mem_cons_self b t))]
    rw [ih (fun x hx => h x (List.mem_cons_of_mem b hx))]
    rfl

theorem insertionSort_desc_eq_reverse (key : Msg → Nat) (l : List Msg)
    (h : l.Pairwise (fun a b => key a < key b)) :
    List.insertionSort (fun a b => key b ≤ key a) l = l.reverse := by
  induction l with
  | nil => rfl
  | cons a t ih =>
    simp only [List.insertionSort]
    rw [ih (List.Pairwise.of_cons h)]
    rw [orderedInsert_eq_append]
    · simp
    · intro b hb
      rw [List.mem_reverse] at hb
      have := (List.pairwise_cons.mp h).1 b hb
      omega

/-- Under the store ordering invariant, the descending query is the
reverse of the room's insertion-ordered message list. -/
theorem messagesDesc_eq_reverse (s : State) (roomId : String)
    (h : s.store.Pairwise (fun a b => a.id < b.id ∧ a.createdAt < b.createdAt)) :
    messagesDesc s roomId = (roomMsgs s roomId).reverse := by
  unfold messagesDesc
  apply insertionSort_desc_eq_reverse
  have hsub : List.Sublist (roomMsgs s roomId) s.store := List.filter_sublist s.store
  exact ((h.sublist hsub).imp (fun hab => hab.2))

theorem filter_not_mem_drop {α : Type} [DecidableEq α] (f : α → Nat) :
    ∀ (l : List α) (k : Nat), ((l.map f).Nodup) →
      l.filter (fun m => decide (f m ∉ (l.drop k).map f)) = l.take k := by
  intro l
  induction l with
  | nil => intro k _; simp
  | cons a t ih =>
    intro k h
    simp only [List.map_cons, List.nodup_cons] at h
    match k with
    | 0 =>
      simp only [List.drop_zero, List.take_zero]
      apply List.filter_eq_nil_iff.mpr
      intro x hx
      simp only [List.map_cons, decide_eq_true_eq, Decidable.not_not, List.mem_cons]
      rcases List.mem_cons.mp hx with hx | hx
      · exact Or.inl (congrArg f hx)
      · exact Or.inr (List.mem_map_of_mem f hx)
    | k + 1 =>
      have hdrop : (a :: t).drop (k + 1) = t.drop k := rfl
      rw [hdrop]
      have ha : f a ∉ (t.drop k).map f := by
        intro hmem
        apply h.1
        have hsub : List.Sublist ((t.drop k).map f) (t.map f) := (List.drop_sublist k t).map f
        exact hsub.mem hmem
      have ha' : (fun m => decide (f m ∉ (t.drop k).map f)) a = true := by
        simpa using ha
      rw [List.filter_cons, if_pos ha']
      have ht : t.filter (fun m => decide (f m ∉ (t.drop k).map f)) = t.take k := ih k h.2
      rw [ht]
      rfl

/-! ## Characterization of the broadcast helpers

Neither broadcast helper modifies the state: the `ws.send` return value
is discarded (websocket.ts lines 268-272 and 283-285). -/

@[simp]
theorem broadcast_fst (s : State) (ws : Nat) (roomId : String) (d : ServerMessage) :
    (broadcast s ws roomId d).1 = s := by
  unfold broadcast
  cases assocLookup s.roomConnections roomId <;> rfl

@[simp]
theorem broadcastToRoom_fst (s : State) (roomId : String) (d : ServerMessage) :
    (broadcastToRoom s roomId d).1 = s := by
  unfold broadcastToRoom
  cases assocLookup s.roomConnections roomId <;> rfl

theorem broadcast_snd (s : State) (ws : Nat) (roomId : String) (d : ServerMessage) :
    (broadcast s ws roomId d).2 =
      ((roomMembers s roomId).filter (fun x => decide (x ≠ ws))).map (fun x => (x, d)) := by
  unfold broadcast roomMembers
  cases assocLookup s.roomConnections roomId <;> rfl

theorem broadcastToRoom_snd (s : State) (roomId : String) (d : ServerMessage) :
    (broadcastToRoom s roomId d).2 = (roomMembers s roomId).map (fun x => (x, d)) := by
  unfold broadcastToRoom roomMembers
  cases assocLookup s.roomConnections roomId <;> rfl

/-! ## The global well-formedness invariant -/

/-- The well-formedness invariant of the backend state: map keys are
unique, member sets are duplicate-free, nonempty and in lock-step with
the `roomId` field of each live connection, room ids are nonempty
strings, and the message store is strictly ordered by id and creation
time, both below the insertion counter. -/
structure WF (s : State) : Prop where
  connKeys : (s.conns.map Prod.fst).Nodup
  roomKeys : (s.roomConnections.map Prod.fst).Nodup
  membersNodup : ∀ r ms, assocLookup s.roomConnections r = some ms → ms.Nodup
  membersNe : ∀ r ms, assocLookup s.roomConnections r = some ms → ms ≠ []
  memberLive : ∀ r ms, assocLookup s.roomConnections r = some ms → ∀ ws ∈ ms,
    ∃ c, assocLookup s.conns ws = some c ∧ c.roomId = some r
  roomLink : ∀ ws c r, assocLookup s.conns ws = some c → c.roomId = some r →
    ∃ ms, assocLookup s.roomConnections r = some ms ∧ ws ∈ ms
  connRoomNe : ∀ ws c, assocLookup s.conns ws = some c → c.roomId ≠ some ""
  dbRoomsNe : ∀ rm ∈ s.dbRooms, rm.id ≠ ""
  storeSorted : s.store.Pairwise (fun a b => a.id < b.id ∧ a.createdAt < b.createdAt)
  storeBound : ∀ m ∈ s.store, m.id < s.nextId ∧ m.createdAt < s.nextId

theorem wf_init : WF initState := by
  constructor <;> simp [initState, assocLookup]

/-! ## Characterization of leaveRoom -/

theorem leaveRoom_noConn (s : State) (ws : Nat) (hc : assocLookup s.conns ws = none) :
    leaveRoom s ws = (s, []) := by
  unfold leaveRoom
  rw [hc]

theorem leaveRoom_notIn (s : State) (ws : Nat) (c : Conn)
    (hc : assocLookup s.conns ws = some c) (hr : c.roomId = none) :
    leaveRoom s ws = (s, []) := by
  unfold leaveRoom
  rw [hc]
  simp [hr]

theorem leaveRoom_emptyId (s : State) (ws : Nat) (c : Conn)
    (hc : assocLookup s.conns ws = some c) (hr : c.roomId = some "") :
    leaveRoom s ws = (s, []) := by
  unfold leaveRoom
  rw [hc]
  simp [hr]

theorem assocLookup_mem_keys {κ β : Type} [DecidableEq κ] (m : List (κ × β)) (k : κ) (v : β)
    (h : assocLookup m k = some v) : k ∈ m.map Prod.fst := by
  by_contra hk
  rw [(assocLookup_eq_none m k).mpr hk] at h
  exact Option.noConfusion h

/-- Full characterization of `leaveRoom` when the connection is in a
room with a nonempty id: the store, room table and counter are
untouched; the connection's `roomId` is cleared; it is removed from the
room's member list, whose registry entry is pruned exactly when it
became empty; `USER_LEFT` goes to the other members and `ROOM_LEFT` to
the leaver. -/
theorem leaveRoom_main (s : State) (ws : Nat) (c : Conn) (roomId : String)
    (hc : assocLookup s.conns ws = some c) (hr : c.roomId = some roomId)
    (hne : roomId ≠ "") (hkeys : (s.roomConnections.map Prod.fst).Nodup) :
    (leaveRoom s ws).1.store = s.store ∧
    (leaveRoom s ws).1.dbRooms = s.dbRooms ∧
    (leaveRoom s ws).1.nextId = s.nextId ∧
    (leaveRoom s ws).1.broken = s.broken ∧
    assocLookup (leaveRoom s ws).1.conns ws = some { c with roomId := none } ∧
    (∀ ws1, ws1 ≠ ws → assocLookup (leaveRoom s ws).1.conns ws1 = assocLookup s.conns ws1) ∧
    (leaveRoom s ws).1.conns.map Prod.fst = s.conns.map Prod.fst ∧
    (∀ r, r ≠ roomId →
      assocLookup (leaveRoom s ws).1.roomConnections r = assocLookup s.roomConnections r) ∧
    assocLookup (leaveRoom s ws).1.roomConnections roomId =
      (if (setDelete (roomMembers s roomId) ws).length = 0 then none
       else some (setDelete (roomMembers s roomId) ws)) ∧
    ((leaveRoom s ws).1.roomConnections.map Prod.fst).Nodup ∧
    (leaveRoom s ws).2 =
      ((roomMembers s roomId).filter (fun x => decide (x ≠ ws))).map
        (fun x => (x, ServerMessage.USER_LEFT c.username)) ++ [(ws, ServerMessage.ROOM_LEFT)] := by
  have hconnKeys : (assocSet s.conns ws { c with roomId := none }).map Prod.fst =
      s.conns.map Prod.fst := by
    rw [assocSet_keys, if_pos (assocLookup_mem_keys _ _ _ hc)]
  unfold leaveRoom
  rw [hc]
  simp only [hr, hne, broadcast_fst, broadcast_snd]
  cases hms : assocLookup s.roomConnections roomId with
  | none =>
    have hmem : roomMembers s roomId = [] := by simp [roomMembers, hms]
    refine ⟨by simp [hms], by simp [hms], by simp [hms], by simp [hms],
      ?_, ?_, ?_, ?_, ?_, ?_, ?_⟩
    · simp [hms, assocLookup_set]
    · intro ws1 h1
      simp [hms, assocLookup_set, h1]
    · simpa [hms] using hconnKeys
    · intro r _
      simp [hms]
    · simp [hms, hmem, setDelete]
    · simpa [hms] using hkeys
    · simp [hmem]
  | some ms =>
    have hmem : roomMembers s roomId = ms := by simp [roomMembers, hms]
    by_cases hnil : setDelete ms ws = []
    · have hset := assocSet_keys_nodup s.roomConnections roomId ([] : List Nat) hkeys
      have hlook0 : assocLookup (assocSet s.roomConnections roomId ([] : List Nat)) roomId
          = some [] := by
        rw [assocLookup_set, if_pos rfl]
      have hdel := assocLookup_delete_self
        (assocSet s.roomConnections roomId ([] : List Nat)) roomId hset
      refine ⟨by simp [hnil, hlook0], by simp [hnil, hlook0], by simp [hnil, hlook0],
        by simp [hnil, hlook0], ?_, ?_, ?_, ?_, ?_, ?_, ?_⟩
      · simp [hnil, hlook0, assocLookup_set]
      · intro ws1 h1
        simp [hnil, hlook0, assocLookup_set, h1]
      · simpa [hnil, hlook0] using hconnKeys
      · intro r h1
        have hh := assocLookup_delete_ne (assocSet s.roomConnections roomId ([] : List Nat))
          roomId r h1
        have hh2 := assocLookup_set s.roomConnections roomId r ([] : List Nat)
        simp [hnil, hlook0, hh, hh2, h1]
      · simp [hnil, hlook0, hmem, hdel]
      · simpa [hnil, hlook0] using assocDelete_keys_nodup _ roomId hset
      · simp [hmem]
    · have hset := assocSet_keys_nodup s.roomConnections roomId (setDelete ms ws) hkeys
      have hlook : assocLookup (assocSet s.roomConnections roomId (setDelete ms ws)) roomId
          = some (setDelete ms ws) := by
        rw [assocLookup_set, if_pos rfl]
      have hlen : ¬ (setDelete ms ws).length = 0 := by
        intro h0
        exact hnil (List.length_eq_zero.mp h0)
      refine ⟨by simp [hlook, hnil], by simp [hlook, hnil], by simp [hlook, hnil],
        by simp [hlook, hnil], ?_, ?_, ?_, ?_, ?_, ?_, ?_⟩
      · simp [hlook, hnil, assocLookup_set]
      · intro ws1 h1
        simp [hlook, hnil, assocLookup_set, h1]
      · simpa [hlook, hnil] using hconnKeys
      · intro r h1
        have hh := assocLookup_set s.roomConnections roomId r (setDelete ms ws)
        simp [hlook, hnil, hh, h1]
      · simp [hlook, hnil, hmem, hlen]
      · simpa [hlook, hnil] using hset
      · simp [hmem]

/-- In a well-formed state, a connection with no current room is in no
member list. -/
theorem wf_not_member (s : State) (h : WF s) (ws : Nat)
    (hnone : connCurrentRoom s ws = none) :
    ∀ r ms, assocLookup s.roomConnections r = some ms → ws ∉ ms := by
  intro r ms hms hin
  obtain ⟨c, hc, hcr⟩ := h.memberLive r ms hms ws hin
  rw [connCurrentRoom, hc] at hnone
  simp [hcr] at hnone

/-- `leaveRoom` preserves the global invariant. -/
theorem leaveRoom_wf (s : State) (ws : Nat) (h : WF s) : WF (leaveRoom s ws).1 := by
  cases hc : assocLookup s.conns ws with
  | none =>
    rw [leaveRoom_noConn s ws hc]
    exact h
  | some c =>
    cases hr : c.roomId with
    | none =>
      rw [leaveRoom_notIn s ws c hc hr]
      exact h
    | some roomId =>
      by_cases hne : roomId = ""
      · exact absurd (hne ▸ hr) (h.connRoomNe ws c hc)
      · obtain ⟨hst, hdb, hnx, hbk, hself, hother, hckeys, hrother, hrroom, hrkeys, hevs⟩ :=
          leaveRoom_main s ws c roomId hc hr hne h.roomKeys
        obtain ⟨ms0, hms0, hws0⟩ := h.roomLink ws c roomId hc hr
        have hmem0 : roomMembers s roomId = ms0 := by simp [roomMembers, hms0]
        rw [hmem0] at hrroom
        constructor
        · rw [hckeys]
          exact h.connKeys
        · exact hrkeys
        · intro r ms hms
          by_cases hr1 : r = roomId
          · subst hr1
            rw [hrroom] at hms
            by_cases h0 : (setDelete ms0 ws).length = 0
            · rw [if_pos h0] at hms
              exact Option.noConfusion hms
            · rw [if_neg h0] at hms
              obtain rfl : setDelete ms0 ws = ms := Option.some.inj hms
              exact setDelete_nodup ms0 ws (h.membersNodup r ms0 hms0)
          · rw [hrother r hr1] at hms
            exact h.membersNodup r ms hms
        · intro r ms hms
          by_cases hr1 : r = roomId
          · subst hr1
            rw [hrroom] at hms
            by_cases h0 : (setDelete ms0 ws).length = 0
            · rw [if_pos h0] at hms
              exact Option.noConfusion hms
            · rw [if_neg h0] at hms
              obtain rfl : setDelete ms0 ws = ms := Option.some.inj hms
              intro hnil
              exact h0 (by rw [hnil]; rfl)
          · rw [hrother r hr1] at hms
            exact h.membersNe r ms hms
        · intro r ms hms ws1 hws1
          by_cases hr1 : r = roomId
          · subst hr1
            rw [hrroom] at hms
            by_cases h0 : (setDelete ms0 ws).length = 0
            · rw [if_pos h0] at hms
              exact Option.noConfusion hms
            · rw [if_neg h0] at hms
              obtain rfl : setDelete ms0 ws = ms := Option.some.inj hms
              obtain ⟨hin0, hne1⟩ := (mem_setDelete ms0 ws ws1).mp hws1
              obtain ⟨c1, hc1, hcr1⟩ := h.memberLive r ms0 hms0 ws1 hin0
              refine ⟨c1, ?_, hcr1⟩
              rw [hother ws1 hne1]
              exact hc1
          · rw [hrother r hr1] at hms
            obtain ⟨c1, hc1, hcr1⟩ := h.memberLive r ms hms ws1 hws1
            by_cases hne1 : ws1 = ws
            · subst hne1
              rw [hc] at hc1
              obtain rfl : c = c1 := Option.some.inj hc1
              rw [hr] at hcr1
              exact absurd (Option.some.inj hcr1).symm hr1
            · refine ⟨c1, ?_, hcr1⟩
              rw [hother ws1 hne1]
              exact hc1
        · intro ws1 c1 r hc1 hcr1
          by_cases hne1 : ws1 = ws
          · subst hne1
            rw [hself] at hc1
            obtain rfl : { c with roomId := none } = c1 := Option.some.inj hc1
            exact absurd hcr1 (by simp)
          · rw [hother ws1 hne1] at hc1
            obtain ⟨ms1, hms1, hin1⟩ := h.roomLink ws1 c1 r hc1 hcr1
            by_cases hr1 : r = roomId
            · subst hr1
              rw [hms0] at hms1
              obtain rfl : ms0 = ms1 := Option.some.inj hms1
              have hin2 : ws1 ∈ setDelete ms0 ws := (mem_setDelete ms0 ws ws1).mpr ⟨hin1, hne1⟩
              have h0 : ¬ (setDelete ms0 ws).length = 0 := by
                intro h0
                rw [List.length_eq_zero.mp h0] at hin2
                exact List.not_mem_nil ws1 hin2
              refine ⟨setDelete ms0 ws, ?_, hin2⟩
              rw [hrroom, if_neg h0]
            · refine ⟨ms1, ?_, hin1⟩
              rw [hrother r hr1]
              exact hms1
        · intro ws1 c1 hc1
          by_cases hne1 : ws1 = ws
          · subst hne1
            rw [hself] at hc1
            obtain rfl : { c with roomId := none } = c1 := by injection hc1
            simp
          · rw [hother ws1 hne1] at hc1
            exact h.connRoomNe ws1 c1 hc1
        · rw [hdb]
          exact h.dbRoomsNe
        · rw [hst]
          exact h.storeSorted
        · rw [hst, hnx]
          exact h.storeBound

/-- `leaveRoom` never touches the store, the room table, the counter or
the broken set. -/
theorem leaveRoom_fields (s : State) (ws : Nat) :
    (leaveRoom s ws).1.store = s.store ∧ (leaveRoom s ws).1.dbRooms = s.dbRooms ∧
    (leaveRoom s ws).1.nextId = s.nextId ∧ (leaveRoom s ws).1.broken = s.broken := by
  cases hc : assocLookup s.conns ws with
  | none =>
    rw [leaveRoom_noConn s ws hc]
    exact ⟨rfl, rfl, rfl, rfl⟩
  | some c =>
    cases hr : c.roomId with
    | none =>
      rw [leaveRoom_notIn s ws c hc hr]
      exact ⟨rfl, rfl, rfl, rfl⟩
    | some roomId =>
      by_cases hne : roomId = ""
      · subst hne
        rw [leaveRoom_emptyId s ws c hc hr]
        exact ⟨rfl, rfl, rfl, rfl⟩
      · unfold leaveRoom
        rw [hc]
        simp only [hr, hne, broadcast_fst]
        cases hms : assocLookup s.roomConnections roomId <;>
          exact ⟨by simp [hms, assocLookup_set, apply_ite State.store],
            by simp [hms, assocLookup_set, apply_ite State.dbRooms],
            by simp [hms, assocLookup_set, apply_ite State.nextId],
            by simp [hms, assocLookup_set, apply_ite State.broken]⟩

/-! ## Characterization of joinRoom -/

theorem joinRoom_noConn (s : State) (ws : Nat) (roomId : String)
    (hc : assocLookup s.conns ws = none) : joinRoom s ws roomId = (s, []) := by
  unfold joinRoom
  rw [hc]

/-- Join to a nonexistent room by a connection that is not in a room:
only the error is emitted. -/
theorem joinRoom_notFound_out (s : State) (ws : Nat) (roomId : String) (c0 : Conn)
    (hc : assocLookup s.conns ws = some c0) (ht : truthy c0.roomId = false)
    (hnf : s.dbRooms.find? (fun rm => decide (rm.id = roomId)) = none) :
    joinRoom s ws roomId = (s, [(ws, .ERROR "Room not found")]) := by
  unfold joinRoom
  rw [hc]
  simp [ht, hnf]

/-- Join to a nonexistent room by a connection that is in a room: the
source leaves the current room FIRST, so the leave takes full effect and
its events precede the error. -/
theorem joinRoom_notFound_in (s : State) (ws : Nat) (roomId : String) (c0 : Conn)
    (hc : assocLookup s.conns ws = some c0) (ht : truthy c0.roomId = true)
    (hnf : s.dbRooms.find? (fun rm => decide (rm.id = roomId)) = none) :
    joinRoom s ws roomId =
      ((leaveRoom s ws).1, (leaveRoom s ws).2 ++ [(ws, .ERROR "Room not found")]) := by
  have hdb := (leaveRoom_fields s ws).2.1
  unfold joinRoom
  rw [hc]
  simp only [ht, if_true]
  rw [hdb, hnf]

/-- Successful join by a connection that is not currently in a room (no
implicit leave): the connection's `roomId` is set, it is appended to the
room's member list, `ROOM_JOINED` with the reversed last-50 history goes
to the joiner and `USER_JOINED` to everyone else in the updated list. -/
theorem joinRoom_success_out (s : State) (ws : Nat) (roomId : String) (c0 : Conn)
    (room : RoomRec) (hc : assocLookup s.conns ws = some c0) (ht : truthy c0.roomId = false)
    (hf : s.dbRooms.find? (fun rm => decide (rm.id = roomId)) = some room) :
    joinRoom s ws roomId =
      ({ s with conns := assocSet s.conns ws { c0 with roomId := some roomId },
                roomConnections := assocSet s.roomConnections roomId
                  (setAdd (roomMembers s roomId) ws) },
       (ws, .ROOM_JOINED roomId (((messagesDesc s roomId).take 50).reverse.map Msg.toData)) ::
         ((setAdd (roomMembers s roomId) ws).filter (fun x => decide (x ≠ ws))).map
           (fun x => (x, .USER_JOINED c0.username))) := by
  unfold joinRoom
  rw [hc]
  simp only [ht, if_false, Bool.false_eq_true]
  rw [hf]
  simp [broadcast_snd, roomMembers, assocLookup_set]

/-- Successful join by a connection that is currently in a room: the
same, but applied to the state after the implicit leave, whose events
come first. -/
theorem joinRoom_success_in (s : State) (ws : Nat) (roomId : String) (c0 : Conn)
    (room : RoomRec) (hc : assocLookup s.conns ws = some c0) (ht : truthy c0.roomId = true)
    (hf : s.dbRooms.find? (fun rm => decide (rm.id = roomId)) = some room) :
    joinRoom s ws roomId =
      ({ (leaveRoom s ws).1 with
          conns := assocSet (leaveRoom s ws).1.conns ws { c0 with roomId := some roomId },
          roomConnections := assocSet (leaveRoom s ws).1.roomConnections roomId
            (setAdd (roomMembers (leaveRoom s ws).1 roomId) ws) },
       (leaveRoom s ws).2 ++
         (ws, .ROOM_JOINED roomId
             (((messagesDesc (leaveRoom s ws).1 roomId).take 50).reverse.map Msg.toData)) ::
           ((setAdd (roomMembers (leaveRoom s ws).1 roomId) ws).filter
               (fun x => decide (x ≠ ws))).map
             (fun x => (x, .USER_JOINED c0.username))) := by
  have hdb := (leaveRoom_fields s ws).2.1
  unfold joinRoom
  rw [hc]
  simp only [ht, if_true]
  rw [hdb, hf]
  simp [broadcast_snd, roomMembers, assocLookup_set]

/-- Adding an unjoined connection to a room's member list while setting
its `roomId` preserves the invariant. -/
theorem wf_addMember (t : State) (ws : Nat) (c : Conn) (roomId : String)
    (h : WF t) (hc : assocLookup t.conns ws = some c) (hcr : c.roomId = none)
    (hne : roomId ≠ "") :
    WF { t with conns := assocSet t.conns ws { c with roomId := some roomId },
                roomConnections := assocSet t.roomConnections roomId
                  (setAdd (roomMembers t roomId) ws) } := by
  have hnotmem : ∀ r ms, assocLookup t.roomConnections r = some ms → ws ∉ ms := by
    apply wf_not_member t h ws
    rw [connCurrentRoom, hc]
    simp [hcr]
  constructor
  · exact assocSet_keys_nodup _ _ _ h.connKeys
  · exact assocSet_keys_nodup _ _ _ h.roomKeys
  · intro r ms hms
    simp only [assocLookup_set] at hms
    by_cases hr1 : r = roomId
    · rw [if_pos hr1] at hms
      obtain rfl : setAdd (roomMembers t roomId) ws = ms := Option.some.inj hms
      apply setAdd_nodup
      unfold roomMembers
      cases hms0 : assocLookup t.roomConnections roomId with
      | none => simp
      | some ms0 => simpa using h.membersNodup roomId ms0 hms0
    · rw [if_neg hr1] at hms
      exact h.membersNodup r ms hms
  · intro r ms hms
    simp only [assocLookup_set] at hms
    by_cases hr1 : r = roomId
    · rw [if_pos hr1] at hms
      obtain rfl : setAdd (roomMembers t roomId) ws = ms := Option.some.inj hms
      exact setAdd_ne_nil _ _
    · rw [if_neg hr1] at hms
      exact h.membersNe r ms hms
  · intro r ms hms ws1 hws1
    simp only [assocLookup_set] at hms
    by_cases hr1 : r = roomId
    · subst hr1
      rw [if_pos rfl] at hms
      obtain rfl : setAdd (roomMembers t r) ws = ms := Option.some.inj hms
      rcases (mem_setAdd (roomMembers t r) ws ws1).mp hws1 with hin | rfl
      · cases hms0 : assocLookup t.roomConnections r with
        | none =>
          rw [roomMembers, hms0] at hin
          exact absurd hin (List.not_mem_nil ws1)
        | some ms0 =>
          rw [roomMembers, hms0] at hin
          obtain ⟨c1, hc1, hcr1⟩ := h.memberLive r ms0 hms0 ws1 hin
          have hne1 : ws1 ≠ ws := by
            intro hh
            subst hh
            rw [hc] at hc1
            obtain rfl : c = c1 := Option.some.inj hc1
            rw [hcr] at hcr1
            exact Option.noConfusion hcr1
          refine ⟨c1, ?_, hcr1⟩
          rw [assocLookup_set, if_neg hne1]
          exact hc1
      · refine ⟨{ c with roomId := some r }, ?_, rfl⟩
        rw [assocLookup_set, if_pos rfl]
    · rw [if_neg hr1] at hms
      obtain ⟨c1, hc1, hcr1⟩ := h.memberLive r ms hms ws1 hws1
      have hne1 : ws1 ≠ ws := by
        intro hh
        subst hh
        rw [hc] at hc1
        obtain rfl : c = c1 := Option.some.inj hc1
        rw [hcr] at hcr1
        exact Option.noConfusion hcr1
      refine ⟨c1, ?_, hcr1⟩
      rw [assocLookup_set, if_neg hne1]
      exact hc1
  · intro ws1 c1 r hc1 hcr1
    simp only [assocLookup_set] at hc1
    by_cases hne1 : ws1 = ws
    · rw [if_pos hne1] at hc1
      obtain rfl : { c with roomId := some roomId } = c1 := Option.some.inj hc1
      have : roomId = r := by
        have := hcr1
        simp only at this
        exact Option.some.inj this
      subst this
      refine ⟨setAdd (roomMembers t roomId) ws, ?_, ?_⟩
      · rw [assocLookup_set, if_pos rfl]
      · exact (mem_setAdd _ _ _).mpr (Or.inr hne1)
    · rw [if_neg hne1] at hc1
      obtain ⟨ms1, hms1, hin1⟩ := h.roomLink ws1 c1 r hc1 hcr1
      by_cases hr1 : r = roomId
      · subst hr1
        refine ⟨setAdd (roomMembers t r) ws, ?_, ?_⟩
        · rw [assocLookup_set, if_pos rfl]
        · have : roomMembers t r = ms1 := by rw [roomMembers, hms1]; rfl
          rw [this]
          exact (mem_setAdd _ _ _).mpr (Or.inl hin1)
      · refine ⟨ms1, ?_, hin1⟩
        rw [assocLookup_set, if_neg hr1]
        exact hms1
  · intro ws1 c1 hc1
    simp only [assocLookup_set] at hc1
    by_cases hne1 : ws1 = ws
    · rw [if_pos hne1] at hc1
      obtain rfl : { c with roomId := some roomId } = c1 := Option.some.inj hc1
      simp [hne]
    · rw [if_neg hne1] at hc1
      exact h.connRoomNe ws1 c1 hc1
  · exact h.dbRoomsNe
  · exact h.storeSorted
  · exact h.storeBound

/-- A room id found in the room table is a nonempty string. -/
theorem find_room_ne (s : State) (roomId : String) (room : RoomRec)
    (hdb : ∀ rm ∈ s.dbRooms, rm.id ≠ "")
    (hf : s.dbRooms.find? (fun rm => decide (rm.id = roomId)) = some room) :
    roomId ≠ "" := by
  have hmem := List.mem_of_find?_eq_some hf
  have hpred := List.find?_some hf
  simp only [decide_eq_true_eq] at hpred
  rw [← hpred]
  exact hdb room hmem

/-- Under the invariant, a connection whose `roomId` is not truthy has
`roomId = none`. -/
theorem wf_truthy_false (s : State) (ws : Nat) (c : Conn) (h : WF s)
    (hc : assocLookup s.conns ws = some c) (ht : truthy c.roomId = false) :
    c.roomId = none := by
  cases hr : c.roomId with
  | none => rfl
  | some roomId =>
    rw [hr] at ht
    simp only [truthy, decide_eq_false_iff_not, Decidable.not_not] at ht
    exact absurd (ht ▸ hr) (h.connRoomNe ws c hc)

/-- `joinRoom` preserves the global invariant. -/
theorem joinRoom_wf (s : State) (ws : Nat) (roomId : String) (h : WF s) :
    WF (joinRoom s ws roomId).1 := by
  cases hc : assocLookup s.conns ws with
  | none =>
    rw [joinRoom_noConn s ws roomId hc]
    exact h
  | some c0 =>
    cases ht : truthy c0.roomId with
    | false =>
      have hcr : c0.roomId = none := wf_truthy_false s ws c0 h hc ht
      cases hf : s.dbRooms.find? (fun rm => decide (rm.id = roomId)) with
      | none =>
        rw [joinRoom_notFound_out s ws roomId c0 hc ht hf]
        exact h
      | some room =>
        rw [joinRoom_success_out s ws roomId c0 room hc ht hf]
        exact wf_addMember s ws c0 roomId h hc hcr (find_room_ne s roomId room h.dbRoomsNe hf)
    | true =>
      cases hr : c0.roomId with
      | none => rw [hr] at ht; exact Bool.noConfusion ht
      | some rid0 =>
        have hne0 : rid0 ≠ "" := by
          rw [hr] at ht
          simpa [truthy] using ht
        obtain ⟨hst, hdb, hnx, hbk, hself, hother, hckeys, hrother, hrroom, hrkeys, hevs⟩ :=
          leaveRoom_main s ws c0 rid0 hc hr hne0 h.roomKeys
        have hwf1 : WF (leaveRoom s ws).1 := leaveRoom_wf s ws h
        cases hf : s.dbRooms.find? (fun rm => decide (rm.id = roomId)) with
        | none =>
          rw [joinRoom_notFound_in s ws roomId c0 hc ht hf]
          exact hwf1
        | some room =>
          rw [joinRoom_success_in s ws roomId c0 room hc ht hf]
          have hfind1 : (leaveRoom s ws).1.dbRooms.find?
              (fun rm => decide (rm.id = roomId)) = some room := by
            rw [hdb]
            exact hf
          exact wf_addMember (leaveRoom s ws).1 ws { c0 with roomId := none } roomId hwf1
            hself rfl (find_room_ne _ roomId room hwf1.dbRoomsNe hfind1)

/-! ## Characterization of sendMessage and retention trimming -/

theorem sendMessage_noConn (s : State) (ws : Nat) (content : String)
    (hc : assocLookup s.conns ws = none) : sendMessage s ws content = (s, []) := by
  unfold sendMessage
  rw [hc]

theorem sendMessage_notIn (s : State) (ws : Nat) (content : String) (c : Conn)
    (hc : assocLookup s.conns ws = some c) (hr : c.roomId = none) :
    sendMessage s ws content = (s, [(ws, .ERROR "Not in a room")]) := by
  unfold sendMessage
  rw [hc]
  simp [hr]

theorem sendMessage_emptyId (s : State) (ws : Nat) (content : String) (c : Conn)
    (hc : assocLookup s.conns ws = some c) (hr : c.roomId = some "") :
    sendMessage s ws content = (s, [(ws, .ERROR "Not in a room")]) := by
  unfold sendMessage
  rw [hc]
  simp [hr]

theorem sendMessage_empty (s : State) (ws : Nat) (content : String) (c : Conn)
    (roomId : String) (hc : assocLookup s.conns ws = some c) (hr : c.roomId = some roomId)
    (hne : roomId ≠ "") (hct : jsTrim content = "") :
    sendMessage s ws content = (s, [(ws, .ERROR "Message cannot be empty")]) := by
  unfold sendMessage
  rw [hc]
  simp [hr, hne, hct]

/-- Successful send: the new message is appended to the store,
`NEW_MESSAGE` goes to every member of the room including the sender, and
the retention trim runs afterwards. -/
theorem sendMessage_success (s : State) (ws : Nat) (content : String) (c : Conn)
    (roomId : String) (hc : assocLookup s.conns ws = some c) (hr : c.roomId = some roomId)
    (hne : roomId ≠ "") (hct : jsTrim content ≠ "") :
    sendMessage s ws content =
      (cleanupOldMessages
        { s with store := s.store ++ [newMsg s c roomId content], nextId := s.nextId + 1 }
        roomId,
       (roomMembers s roomId).map
         (fun x => (x, .NEW_MESSAGE (newMsg s c roomId content).toData))) := by
  unfold sendMessage
  rw [hc]
  simp [hr, hne, hct, broadcastToRoom_snd, roomMembers]

/-- The trim step replaces the store and nothing else. -/
theorem cleanupOldMessages_eq (s : State) (roomId : String) :
    cleanupOldMessages s roomId = { s with store := (cleanupOldMessages s roomId).store } := by
  unfold cleanupOldMessages
  dsimp only
  split
  · rfl
  · rfl

/-- The trim step only touches the store. -/
theorem cleanup_fields (s : State) (roomId : String) :
    (cleanupOldMessages s roomId).conns = s.conns ∧
    (cleanupOldMessages s roomId).roomConnections = s.roomConnections ∧
    (cleanupOldMessages s roomId).dbRooms = s.dbRooms ∧
    (cleanupOldMessages s roomId).nextId = s.nextId ∧
    (cleanupOldMessages s roomId).broken = s.broken := by
  rw [cleanupOldMessages_eq s roomId]
  exact ⟨rfl, rfl, rfl, rfl, rfl⟩

/-- The trimmed store is a sublist of the store. -/
theorem cleanup_store_sublist (s : State) (roomId : String) :
    List.Sublist (cleanupOldMessages s roomId).store s.store := by
  unfold cleanupOldMessages
  dsimp only
  split
  · exact List.filter_sublist s.store
  · exact List.Sublist.refl s.store

/-- Under the store ordering invariant, the retention trim leaves
exactly the room's messages beyond the oldest `length - 50`, and leaves
every other room's messages alone. -/
theorem cleanup_roomMsgs (s : State) (roomId : String)
    (hsorted : s.store.Pairwise (fun a b => a.id < b.id ∧ a.createdAt < b.createdAt)) :
    roomMsgs (cleanupOldMessages s roomId) roomId =
      (roomMsgs s roomId).drop ((roomMsgs s roomId).length - 50) := by
  have hdesc := messagesDesc_eq_reverse s roomId hsorted
  have hLsorted : (roomMsgs s roomId).Pairwise (fun a b => a.id < b.id) :=
    (hsorted.sublist (List.filter_sublist s.store)).imp (fun hab => hab.1)
  have hnodup : ((messagesDesc s roomId).map Msg.id).Nodup := by
    rw [hdesc, List.map_reverse, List.nodup_reverse]
    exact List.pairwise_map.mpr (hLsorted.imp (fun hab => Nat.ne_of_lt hab))
  by_cases hlen : ((messagesDesc s roomId).drop 50).length > 0
  · have hstore : (cleanupOldMessages s roomId).store
        = s.store.filter
            (fun m => decide (m.id ∉ ((messagesDesc s roomId).drop 50).map Msg.id)) := by
      unfold cleanupOldMessages
      dsimp only
      rw [if_pos hlen]
    have h1 : roomMsgs (cleanupOldMessages s roomId) roomId
        = (roomMsgs s roomId).filter
            (fun m => decide (m.id ∉ ((messagesDesc s roomId).drop 50).map Msg.id)) := by
      unfold roomMsgs
      rw [hstore, List.filter_comm]
    rw [h1]
    have h2 : roomMsgs s roomId = (messagesDesc s roomId).reverse := by
      rw [hdesc, List.reverse_reverse]
    rw [h2, List.filter_reverse]
    rw [filter_not_mem_drop Msg.id (messagesDesc s roomId) 50 hnodup]
    rw [List.drop_reverse]
    congr 1
    rw [List.length_reverse]
    by_cases hge : 50 ≤ (messagesDesc s roomId).length
    · rw [Nat.sub_sub_self hge]
    · have hle : (messagesDesc s roomId).length ≤ 50 := le_of_not_le hge
      rw [List.take_of_length_le hle, Nat.sub_eq_zero_of_le hle, Nat.sub_zero, List.take_length]
  · have hcl : cleanupOldMessages s roomId = s := by
      unfold cleanupOldMessages
      dsimp only
      rw [if_neg hlen]
    have hle : (roomMsgs s roomId).length ≤ 50 := by
      have h0 : ((messagesDesc s roomId).drop 50).length = 0 := by omega
      rw [List.length_drop] at h0
      have := Nat.le_of_sub_eq_zero h0
      rw [hdesc, List.length_reverse] at this
      exact this
    rw [hcl, Nat.sub_eq_zero_of_le hle, List.drop_zero]

/-- `sendMessage` preserves the global invariant. -/
theorem sendMessage_wf (s : State) (ws : Nat) (content : String) (h : WF s) :
    WF (sendMessage s ws content).1 := by
  cases hc : assocLookup s.conns ws with
  | none =>
    rw [sendMessage_noConn s ws content hc]
    exact h
  | some c =>
    cases hr : c.roomId with
    | none =>
      rw [sendMessage_notIn s ws content c hc hr]
      exact h
    | some roomId =>
      by_cases hne : roomId = ""
      · subst hne
        rw [sendMessage_emptyId s ws content c hc hr]
        exact h
      · by_cases hct : jsTrim content = ""
        · rw [sendMessage_empty s ws content c roomId hc hr hne hct]
          exact h
        · rw [sendMessage_success s ws content c roomId hc hr hne hct]
          have hf := cleanup_fields
            { s with store := s.store ++ [newMsg s c roomId content], nextId := s.nextId + 1 }
            roomId
          have hsub := cleanup_store_sublist
            { s with store := s.store ++ [newMsg s c roomId content], nextId := s.nextId + 1 }
            roomId
          have hsorted1 : (s.store ++ [newMsg s c roomId content]).Pairwise
              (fun a b => a.id < b.id ∧ a.createdAt < b.createdAt) := by
            apply List.pairwise_append.mpr
            refine ⟨h.storeSorted, List.pairwise_singleton _ _, ?_⟩
            intro a ha b hb
            rw [List.mem_singleton] at hb
            subst hb
            exact ⟨(h.storeBound a ha).1, (h.storeBound a ha).2⟩
          constructor
          · rw [hf.1]
            exact h.connKeys
          · rw [hf.2.1]
            exact h.roomKeys
          · intro r ms hms
            rw [hf.2.1] at hms
            exact h.membersNodup r ms hms
          · intro r ms hms
            rw [hf.2.1] at hms
            exact h.membersNe r ms hms
          · intro r ms hms ws1 hws1
            rw [hf.2.1] at hms
            obtain ⟨c1, hc1, hcr1⟩ := h.memberLive r ms hms ws1 hws1
            refine ⟨c1, ?_, hcr1⟩
            rw [hf.1]
            exact hc1
          · intro ws1 c1 r hc1 hcr1
            rw [hf.1] at hc1
            obtain ⟨ms1, hms1, hin1⟩ := h.roomLink ws1 c1 r hc1 hcr1
            refine ⟨ms1, ?_, hin1⟩
            rw [hf.2.1]
            exact hms1
          · intro ws1 c1 hc1
            rw [hf.1] at hc1
            exact h.connRoomNe ws1 c1 hc1
          · intro rm hrm
            rw [hf.2.2.1] at hrm
            exact h.dbRoomsNe rm hrm
          · exact hsorted1.sublist hsub
          · intro m hm
            rw [hf.2.2.2.1]
            dsimp only
            have hm1 := hsub.mem hm
            rcases List.mem_append.mp hm1 with hm1 | hm1
            · have := h.storeBound m hm1
              exact ⟨by omega, by omega⟩
            · rw [List.mem_singleton] at hm1
              subst hm1
              exact ⟨by simp [newMsg], by simp [newMsg]⟩

/-- Removing a connection that is in no member list from the live set
preserves the invariant (the `broken` list may change freely). -/
theorem wf_removeConn (t : State) (ws : Nat) (bs : List Nat) (h : WF t)
    (hnm : ∀ r ms, assocLookup t.roomConnections r = some ms → ws ∉ ms) :
    WF { t with conns := assocDelete t.conns ws, broken := bs } := by
  constructor
  · exact assocDelete_keys_nodup _ _ h.connKeys
  · exact h.roomKeys
  · exact h.membersNodup
  · exact h.membersNe
  · intro r ms hms ws1 hws1
    obtain ⟨c1, hc1, hcr1⟩ := h.memberLive r ms hms ws1 hws1
    have hne1 : ws1 ≠ ws := by
      intro hh
      subst hh
      exact hnm r ms hms hws1
    refine ⟨c1, ?_, hcr1⟩
    rw [assocLookup_delete_ne _ _ _ hne1]
    exact hc1
  · intro ws1 c1 r hc1 hcr1
    by_cases hne1 : ws1 = ws
    · subst hne1
      rw [assocLookup_delete_self _ _ h.connKeys] at hc1
      exact Option.noConfusion hc1
    · rw [assocLookup_delete_ne _ _ _ hne1] at hc1
      exact h.roomLink ws1 c1 r hc1 hcr1
  · intro ws1 c1 hc1
    by_cases hne1 : ws1 = ws
    · subst hne1
      rw [assocLookup_delete_self _ _ h.connKeys] at hc1
      exact Option.noConfusion hc1
    · rw [assocLookup_delete_ne _ _ _ hne1] at hc1
      exact h.connRoomNe ws1 c1 hc1
  · exact h.dbRoomsNe
  · exact h.storeSorted
  · exact h.storeBound

/-- `handleClose` preserves the global invariant. -/
theorem handleClose_wf (s : State) (ws : Nat) (h : WF s) : WF (handleClose s ws).1 := by
  cases hc : assocLookup s.conns ws with
  | none =>
    unfold handleClose
    rw [hc]
    exact h
  | some c =>
    unfold handleClose
    rw [hc]
    cases ht : truthy c.roomId with
    | false =>
      have hcr : c.roomId = none := wf_truthy_false s ws c h hc ht
      simp only [ht, if_false, Bool.false_eq_true]
      apply wf_removeConn s ws _ h
      apply wf_not_member s h ws
      rw [connCurrentRoom, hc]
      simp [hcr]
    | true =>
      simp only [ht, if_true]
      have hwf1 := leaveRoom_wf s ws h
      apply wf_removeConn (leaveRoom s ws).1 ws _ hwf1
      apply wf_not_member _ hwf1 ws
      cases hr : c.roomId with
      | none =>
        rw [hr] at ht
        exact Bool.noConfusion ht
      | some rid =>
        have hne : rid ≠ "" := by
          rw [hr] at ht
          simpa [truthy] using ht
        obtain ⟨_, _, _, _, hself, _, _, _, _, _, _⟩ :=
          leaveRoom_main s ws c rid hc hr hne h.roomKeys
        rw [connCurrentRoom, hself]
        rfl

/-- `handleDeleteRoom` preserves the global invariant. -/
theorem handleDeleteRoom_wf (s : State) (requesterId roomId : String) (h : WF s) :
    WF (handleDeleteRoom s requesterId roomId).1 := by
  unfold handleDeleteRoom
  cases hf : s.dbRooms.find? (fun rm => decide (rm.id = roomId)) with
  | none => exact h
  | some room =>
    dsimp only
    by_cases hcr : room.creatorId ≠ requesterId
    · rw [if_pos hcr]
      exact h
    · rw [if_neg hcr]
      simp only [broadcastToRoom_fst]
      constructor
      · exact h.connKeys
      · exact h.roomKeys
      · exact h.membersNodup
      · exact h.membersNe
      · exact h.memberLive
      · exact h.roomLink
      · exact h.connRoomNe
      · intro rm hrm
        exact h.dbRoomsNe rm (List.mem_of_mem_filter hrm)
      · exact h.storeSorted.sublist (List.filter_sublist s.store)
      · intro m hm
        exact h.storeBound m (List.mem_of_mem_filter hm)

/-- `connect` preserves the global invariant. -/
theorem connect_wf (s : State) (ws : Nat) (userId username : String) (h : WF s) :
    WF (connect s ws userId username) := by
  unfold connect
  cases hc : assocLookup s.conns ws with
  | some c => exact h
  | none =>
    constructor
    · exact assocSet_keys_nodup _ _ _ h.connKeys
    · exact h.roomKeys
    · exact h.membersNodup
    · exact h.membersNe
    · intro r ms hms ws1 hws1
      obtain ⟨c1, hc1, hcr1⟩ := h.memberLive r ms hms ws1 hws1
      have hne1 : ws1 ≠ ws := by
        intro hh
        subst hh
        rw [hc] at hc1
        exact Option.noConfusion hc1
      refine ⟨c1, ?_, hcr1⟩
      rw [assocLookup_set, if_neg hne1]
      exact hc1
    · intro ws1 c1 r hc1 hcr1
      rw [assocLookup_set] at hc1
      by_cases hne1 : ws1 = ws
      · rw [if_pos hne1] at hc1
        obtain rfl := Option.some.inj hc1
        exact Option.noConfusion hcr1
      · rw [if_neg hne1] at hc1
        exact h.roomLink ws1 c1 r hc1 hcr1
    · intro ws1 c1 hc1
      rw [assocLookup_set] at hc1
      by_cases hne1 : ws1 = ws
      · rw [if_pos hne1] at hc1
        obtain rfl := Option.some.inj hc1
        simp
      · rw [if_neg hne1] at hc1
        exact h.connRoomNe ws1 c1 hc1
    · exact h.dbRoomsNe
    · exact h.storeSorted
    · exact h.storeBound

/-- `createRoom` preserves the global invariant. -/
theorem createRoom_wf (s : State) (rid creatorId : String) (h : WF s) :
    WF (createRoom s rid creatorId) := by
  unfold createRoom
  by_cases hrid : rid = ""
  · rw [if_pos hrid]
    exact h
  · rw [if_neg hrid]
    cases hf : s.dbRooms.find? (fun rm => decide (rm.id = rid)) with
    | some room => exact h
    | none =>
      constructor
      · exact h.connKeys
      · exact h.roomKeys
      · exact h.membersNodup
      · exact h.membersNe
      · exact h.memberLive
      · exact h.roomLink
      · exact h.connRoomNe
      · intro rm hrm
        rcases List.mem_append.mp hrm with hrm | hrm
        · exact h.dbRoomsNe rm hrm
        · rw [List.mem_singleton] at hrm
          subst hrm
          exact hrid
      · exact h.storeSorted
      · exact h.storeBound

/-- `breakChannel` preserves the global invariant. -/
theorem breakChannel_wf (s : State) (ws : Nat) (h : WF s) : WF (breakChannel s ws) := by
  unfold breakChannel
  constructor
  · exact h.connKeys
  · exact h.roomKeys
  · exact h.membersNodup
  · exact h.membersNe
  · exact h.memberLive
  · exact h.roomLink
  · exact h.connRoomNe
  · exact h.dbRoomsNe
  · exact h.storeSorted
  · exact h.storeBound

/-- Every operation preserves the global invariant. -/
theorem wf_step (s : State) (op : Op) (h : WF s) : WF (stepState s op) := by
  cases op with
  | connect ws u n => exact connect_wf s ws u n h
  | join ws r => exact joinRoom_wf s ws r h
  | leave ws => exact leaveRoom_wf s ws h
  | send ws content => exact sendMessage_wf s ws content h
  | close ws => exact handleClose_wf s ws h
  | create rid creator => exact createRoom_wf s rid creator h
  | delete req rid => exact handleDeleteRoom_wf s req rid h
  | chanBreak ws => exact breakChannel_wf s ws h

/-- Every reachable state satisfies the global invariant. -/
theorem wf_reachable (s : State) (h : Reachable s) : WF s := by
  induction h with
  | init => exact wf_init
  | step s op _ ih => exact wf_step s op ih

/-! ## Remaining small helpers -/

theorem roomMsgs_congr (s1 s2 : State) (roomId : String) (h : s1.store = s2.store) :
    roomMsgs s1 roomId = roomMsgs s2 roomId := by
  unfold roomMsgs
  rw [h]

theorem messagesDesc_congr (s1 s2 : State) (roomId : String) (h : s1.store = s2.store) :
    messagesDesc s1 roomId = messagesDesc s2 roomId := by
  unfold messagesDesc
  rw [roomMsgs_congr s1 s2 roomId h]

theorem handleClose_noConn (s : State) (ws : Nat) (hc : assocLookup s.conns ws = none) :
    handleClose s ws = (s, []) := by
  unfold handleClose
  rw [hc]

theorem handleClose_falsy_evs (s : State) (ws : Nat) (c : Conn)
    (hc : assocLookup s.conns ws = some c) (ht : truthy c.roomId = false) :
    (handleClose s ws).2 = [] := by
  unfold handleClose
  rw [hc]
  simp [ht]

theorem isMember_iff (s : State) (roomId : String) (ws : Nat) :
    isMember s roomId ws = true ↔ ws ∈ roomMembers s roomId := by
  unfold isMember
  exact List.elem_iff

/-- Scenario used as a concrete witness: alice and bob both join the
room "general" created by alice's user. -/
def demoOps : List Op :=
  [Op.connect 0 "u0" "alice", Op.connect 1 "u1" "bob",
   Op.create "general" "u0",
   Op.join 0 "general", Op.join 1 "general"]

/-- The same scenario with a third, unjoined connection. -/
def demoOps3 : List Op := demoOps ++ [Op.connect 2 "u2" "carol"]

/-- The same scenario after bob's channel breaks without the close event
having fired. -/
def demoOps4 : List Op := demoOps ++ [Op.chanBreak 1]

/-! ## The claims -/

/-- C1: Lock-step membership invariant — in every reachable registry
state, a connection is in a room's member set exactly when its
`currentRoom` field is that room's id, and hence every connection is in
at most one room's member set; reachability makes this preserved by
every operation (join, leave, send, close, room deletion, connect,
channel breakage). -/
theorem C1_lockstep (s : State) (hs : Reachable s) :
    (∀ ws roomId, isMember s roomId ws = true ↔ connCurrentRoom s ws = some roomId) ∧
    (∀ ws r1 r2, isMember s r1 ws = true → isMember s r2 ws = true → r1 = r2) := by
  have h := wf_reachable s hs
  have hmain : ∀ ws roomId, isMember s roomId ws = true ↔ connCurrentRoom s ws = some roomId := by
    intro ws roomId
    rw [isMember_iff]
    constructor
    · intro hin
      cases hms : assocLookup s.roomConnections roomId with
      | none =>
        rw [roomMembers, hms] at hin
        exact absurd hin (List.not_mem_nil ws)
      | some ms =>
        rw [roomMembers, hms] at hin
        obtain ⟨c, hc, hcr⟩ := h.memberLive roomId ms hms ws hin
        rw [connCurrentRoom, hc]
        simpa using hcr
    · intro hcr
      cases hc : assocLookup s.conns ws with
      | none =>
        rw [connCurrentRoom, hc] at hcr
        exact Option.noConfusion hcr
      | some c =>
        rw [connCurrentRoom, hc] at hcr
        replace hcr : c.roomId = some roomId := hcr
        obtain ⟨ms, hms, hin⟩ := h.roomLink ws c roomId hc hcr
        rw [roomMembers, hms]
        exact hin
  refine ⟨hmain, ?_⟩
  intro ws r1 r2 h1 h2
  have e1 := (hmain ws r1).mp h1
  have e2 := (hmain ws r2).mp h2
  rw [e1] at e2
  exact Option.some.inj e2

/-- Witness for C1 at a concrete reachable state. -/
theorem C1_witness :
    isMember (runOps demoOps) "general" 1 = true ↔
      connCurrentRoom (runOps demoOps) 1 = some "general" :=
  (C1_lockstep (runOps demoOps) (reachable_runOps demoOps)).1 1 "general"

/-- C9: Empty-room pruning invariant — in every reachable registry
state, a room has a registry entry exactly when its member set is
nonempty; reachability makes this preserved by every operation. -/
theorem C9_empty_room_pruned (s : State) (hs : Reachable s) :
    ∀ roomId, (assocLookup s.roomConnections roomId).isSome = true ↔
      roomMembers s roomId ≠ [] := by
  have h := wf_reachable s hs
  intro roomId
  cases hms : assocLookup s.roomConnections roomId with
  | none =>
    simp only [Option.isSome_none]
    constructor
    · intro hh
      exact Bool.noConfusion hh
    · intro hh
      rw [roomMembers, hms] at hh
      exact absurd rfl hh
  | some ms =>
    simp only [Option.isSome_some]
    constructor
    · intro _
      rw [roomMembers, hms]
      exact h.membersNe roomId ms hms
    · intro _
      trivial

/-- Witness for C9 at a concrete reachable state. -/
theorem C9_witness :
    (assocLookup (runOps demoOps).roomConnections "general").isSome = true ↔
      roomMembers (runOps demoOps) "general" ≠ [] :=
  C9_empty_room_pruned (runOps demoOps) (reachable_runOps demoOps) "general"

/-- C10: Leave idempotence — leave when not in a room is a no-op with
no emissions; a second leave right after a leave is a no-op; a transport
close right after a leave emits nothing; and the second of two closes
emits nothing. -/
theorem C10_leave_idempotent (s : State) (hs : Reachable s) (ws : Nat) :
    (connCurrentRoom s ws = none → leaveRoom s ws = (s, [])) ∧
    leaveRoom (leaveRoom s ws).1 ws = ((leaveRoom s ws).1, []) ∧
    (handleClose (leaveRoom s ws).1 ws).2 = [] ∧
    (handleClose (handleClose s ws).1 ws).2 = [] := by
  have h := wf_reachable s hs
  have hfirst : connCurrentRoom s ws = none → leaveRoom s ws = (s, []) := by
    intro hnone
    cases hc : assocLookup s.conns ws with
    | none => exact leaveRoom_noConn s ws hc
    | some c =>
      rw [connCurrentRoom, hc] at hnone
      replace hnone : c.roomId = none := hnone
      exact leaveRoom_notIn s ws c hc hnone
  have hafter : connCurrentRoom (leaveRoom s ws).1 ws = none := by
    cases hc : assocLookup s.conns ws with
    | none =>
      rw [leaveRoom_noConn s ws hc, connCurrentRoom]
      simp [hc]
    | some c =>
      cases hr : c.roomId with
      | none =>
        rw [leaveRoom_notIn s ws c hc hr, connCurrentRoom]
        simp [hc, hr]
      | some rid =>
        have hne : rid ≠ "" := by
          intro hh
          exact absurd (hh ▸ hr) (h.connRoomNe ws c hc)
        obtain ⟨_, _, _, _, hself, _, _, _, _, _, _⟩ :=
          leaveRoom_main s ws c rid hc hr hne h.roomKeys
        rw [connCurrentRoom, hself]
        rfl
  have hsecond : leaveRoom (leaveRoom s ws).1 ws = ((leaveRoom s ws).1, []) := by
    cases hc1 : assocLookup (leaveRoom s ws).1.conns ws with
    | none => exact leaveRoom_noConn _ ws hc1
    | some c1 =>
      rw [connCurrentRoom, hc1] at hafter
      replace hafter : c1.roomId = none := hafter
      exact leaveRoom_notIn _ ws c1 hc1 hafter
  have hthird : (handleClose (leaveRoom s ws).1 ws).2 = [] := by
    cases hc1 : assocLookup (leaveRoom s ws).1.conns ws with
    | none =>
      rw [handleClose_noConn _ ws hc1]
    | some c1 =>
      rw [connCurrentRoom, hc1] at hafter
      replace hafter : c1.roomId = none := hafter
      apply handleClose_falsy_evs _ ws c1 hc1
      rw [hafter]
      rfl
  have hfourth : (handleClose (handleClose s ws).1 ws).2 = [] := by
    cases hc : assocLookup s.conns ws with
    | none =>
      rw [handleClose_noConn s ws hc, handleClose_noConn s ws hc]
    | some c =>
      have hwf2 : WF (handleClose s ws).1 := handleClose_wf s ws h
      have hnone2 : assocLookup (handleClose s ws).1.conns ws = none := by
        unfold handleClose
        rw [hc]
        dsimp only
        apply assocLookup_delete_self
        cases ht : truthy c.roomId with
        | false =>
          simp only [ht, if_false, Bool.false_eq_true]
          exact h.connKeys
        | true =>
          simp only [ht, if_true]
          exact (leaveRoom_wf s ws h).connKeys
      rw [handleClose_noConn _ ws hnone2]
  exact ⟨hfirst, hsecond, hthird, hfourth⟩

/-- Witness for C10 at a concrete reachable state. -/
theorem C10_witness :
    leaveRoom (runOps demoOps3) 2 = (runOps demoOps3, []) ∧
    leaveRoom (leaveRoom (runOps demoOps3) 2).1 2 = ((leaveRoom (runOps demoOps3) 2).1, []) := by
  have h := C10_leave_idempotent (runOps demoOps3) (reachable_runOps demoOps3) 2
  exact ⟨h.1 (by decide), h.2.1⟩

/-- C2 counterexample: joining a nonexistent room from inside "general"
does NOT leave the state unchanged — the connection has already left its
room (its `currentRoom` is cleared, it is gone from the member set) and
`ROOM_LEFT`/`USER_LEFT` are emitted before the error, because the source
leaves first and checks existence afterwards. -/
theorem C2_cex :
    connCurrentRoom (runOps demoOps) 1 = some "general" ∧
    (runOps demoOps).dbRooms.find? (fun rm => decide (rm.id = "nope")) = none ∧
    connCurrentRoom (joinRoom (runOps demoOps) 1 "nope").1 1 = none ∧
    (1, ServerMessage.ROOM_LEFT) ∈ (joinRoom (runOps demoOps) 1 "nope").2 ∧
    (0, ServerMessage.USER_LEFT "bob") ∈ (joinRoom (runOps demoOps) 1 "nope").2 ∧
    isMember (joinRoom (runOps demoOps) 1 "nope").1 "general" 1 = false := by
  decide

/-- C2 (amended): on JOIN_ROOM to a nonexistent target the requester
receives `ERROR{"Room not found"}`; if it was not in a room the state is
unchanged and nothing else is emitted, but if it was in a room the
implicit leave has already run (the source leaves before the existence
check), so the leave's state change and its USER_LEFT/ROOM_LEFT
emissions precede the error. -/
theorem C2_join_notfound (s : State) (hs : Reachable s) (ws : Nat) (c : Conn)
    (target : String) (hc : assocLookup s.conns ws = some c)
    (hnf : s.dbRooms.find? (fun rm => decide (rm.id = target)) = none) :
    (c.roomId = none →
      joinRoom s ws target = (s, [(ws, ServerMessage.ERROR "Room not found")])) ∧
    (∀ rid, c.roomId = some rid →
      joinRoom s ws target =
        ((leaveRoom s ws).1,
         (leaveRoom s ws).2 ++ [(ws, ServerMessage.ERROR "Room not found")])) := by
  have h := wf_reachable s hs
  constructor
  · intro hr
    have ht : truthy c.roomId = false := by rw [hr]; rfl
    exact joinRoom_notFound_out s ws target c hc ht hnf
  · intro rid hr
    have hne : rid ≠ "" := by
      intro hh
      exact absurd (hh ▸ hr) (h.connRoomNe ws c hc)
    have ht : truthy c.roomId = true := by
      rw [hr]
      simpa [truthy] using hne
    exact joinRoom_notFound_in s ws target c hc ht hnf

/-- Witness for C2 at a concrete reachable state with an unjoined
connection. -/
theorem C2_witness :
    joinRoom (runOps demoOps3) 2 "nope"
      = (runOps demoOps3, [(2, ServerMessage.ERROR "Room not found")]) := by
  have h := C2_join_notfound (runOps demoOps3) (reachable_runOps demoOps3) 2
    { userId := "u2", username := "carol", roomId := none } "nope" (by decide) (by decide)
  exact h.1 (by decide)

/-- C3 counterexample: after the creator deletes "general" while 0 and 1
are members, the registry entry is still there with both members, member
0 still has `currentRoom = "general"`, and a subsequent SEND_MESSAGE
from 0 does NOT yield `ERROR{"Not in a room"}`. -/
theorem C3_cex :
    assocLookup (handleDeleteRoom (runOps demoOps) "u0" "general").1.roomConnections "general"
        = some [0, 1] ∧
    connCurrentRoom (handleDeleteRoom (runOps demoOps) "u0" "general").1 0 = some "general" ∧
    (0, ServerMessage.ERROR "Not in a room")
        ∉ (sendMessage (handleDeleteRoom (runOps demoOps) "u0" "general").1 0 "hi").2 := by
  decide

/-- C3 (amended): deleting a room broadcasts `ROOM_DELETED` to every
current member and removes the room row from the store, but it does NOT
touch the registry: the member set and every member's `currentRoom` are
left as they were, and a subsequent SEND_MESSAGE from a former member is
not rejected with `ERROR{"Not in a room"}` (its `currentRoom` still
names the deleted room). -/
theorem C3_delete_room (s : State) (hs : Reachable s) (requesterId roomId : String)
    (room : RoomRec) (hf : s.dbRooms.find? (fun rm => decide (rm.id = roomId)) = some room)
    (hcr : room.creatorId = requesterId) :
    (handleDeleteRoom s requesterId roomId).2 =
        (roomMembers s roomId).map (fun x => (x, ServerMessage.ROOM_DELETED roomId)) ∧
    (handleDeleteRoom s requesterId roomId).1.roomConnections = s.roomConnections ∧
    (handleDeleteRoom s requesterId roomId).1.conns = s.conns ∧
    (handleDeleteRoom s requesterId roomId).1.dbRooms =
        s.dbRooms.filter (fun rm => decide (rm.id ≠ roomId)) ∧
    (∀ ws c content, assocLookup s.conns ws = some c → c.roomId = some roomId →
      (ws, ServerMessage.ERROR "Not in a room")
        ∉ (sendMessage (handleDeleteRoom s requesterId roomId).1 ws content).2) := by
  have h := wf_reachable s hs
  have hnotcr : ¬ room.creatorId ≠ requesterId := by
    rw [hcr]
    exact fun hh => hh rfl
  have heq : handleDeleteRoom s requesterId roomId =
      ({ s with dbRooms := s.dbRooms.filter (fun rm => decide (rm.id ≠ roomId)),
                store := s.store.filter (fun m => decide (m.roomId ≠ roomId)) },
       (roomMembers s roomId).map (fun x => (x, ServerMessage.ROOM_DELETED roomId))) := by
    unfold handleDeleteRoom
    rw [hf]
    dsimp only
    rw [if_neg hnotcr]
    rw [broadcastToRoom_snd]
    simp [broadcastToRoom_fst]
  rw [heq]
  refine ⟨rfl, rfl, rfl, rfl, ?_⟩
  intro ws c content hc hr
  dsimp only
  have hne : roomId ≠ "" := by
    intro hh
    exact absurd (hh ▸ hr) (h.connRoomNe ws c hc)
  have hc2 : assocLookup
      ({ s with dbRooms := s.dbRooms.filter (fun rm => decide (rm.id ≠ roomId)),
                store := s.store.filter (fun m => decide (m.roomId ≠ roomId)) } : State).conns ws
      = some c := hc
  by_cases hct : jsTrim content = ""
  · rw [sendMessage_empty _ ws content c roomId hc2 hr hne hct]
    simp
  · rw [sendMessage_success _ ws content c roomId hc2 hr hne hct]
    intro hmem
    rw [List.mem_map] at hmem
    obtain ⟨x, _, hx⟩ := hmem
    exact ServerMessage.noConfusion (congrArg Prod.snd hx)

/-- Witness for C3 at a concrete reachable state. -/
theorem C3_witness :
    (handleDeleteRoom (runOps demoOps) "u0" "general").2 =
        (roomMembers (runOps demoOps) "general").map
          (fun x => (x, ServerMessage.ROOM_DELETED "general")) ∧
    (handleDeleteRoom (runOps demoOps) "u0" "general").1.roomConnections =
        (runOps demoOps).roomConnections := by
  have h := C3_delete_room (runOps demoOps) (reachable_runOps demoOps) "u0" "general"
    { id := "general", creatorId := "u0" } (by decide) (by decide)
  exact ⟨h.1, h.2.1⟩

/-- C4 counterexample: connection 1's channel is broken (its deliveries
fail), it is a member of "general", and after a broadcast to "general"
it is still a member — the state is untouched, so no pruning happened. -/
theorem C4_cex :
    deliveryFails (runOps demoOps4) 1 = true ∧
    isMember (runOps demoOps4) "general" 1 = true ∧
    (broadcastToRoom (runOps demoOps4) "general"
        (ServerMessage.USER_JOINED "alice")).1 = runOps demoOps4 ∧
    isMember (broadcastToRoom (runOps demoOps4) "general"
        (ServerMessage.USER_JOINED "alice")).1 "general" 1 = true := by
  decide

/-- C4 (amended): a broadcast never modifies the state at all — a member
whose delivery fails is NOT removed from the member set; the failure is
silently ignored with no retry, every emitted frame is the broadcast
payload itself (so no error is surfaced to the sender), and the
except-sender variant never targets the sender. -/
theorem C4_broadcast_no_prune (s : State) (ws : Nat) (roomId : String) (d : ServerMessage) :
    (broadcastToRoom s roomId d).1 = s ∧
    (broadcast s ws roomId d).1 = s ∧
    (∀ e ∈ (broadcastToRoom s roomId d).2, e.2 = d) ∧
    (∀ e ∈ (broadcast s ws roomId d).2, e.2 = d ∧ e.1 ≠ ws) := by
  refine ⟨broadcastToRoom_fst s roomId d, broadcast_fst s ws roomId d, ?_, ?_⟩
  · intro e he
    rw [broadcastToRoom_snd] at he
    rw [List.mem_map] at he
    obtain ⟨x, _, hx⟩ := he
    rw [← hx]
  · intro e he
    rw [broadcast_snd] at he
    rw [List.mem_map] at he
    obtain ⟨x, hxmem, hx⟩ := he
    have hxne : x ≠ ws := by
      have := List.of_mem_filter hxmem
      simpa using this
    constructor
    · rw [← hx]
    · rw [← hx]
      exact hxne

/-- Witness for C4 at a concrete reachable state with a broken member. -/
theorem C4_witness :
    (broadcastToRoom (runOps demoOps4) "general" (ServerMessage.USER_JOINED "x")).1
        = runOps demoOps4 ∧
    (broadcast (runOps demoOps4) 0 "general" (ServerMessage.USER_JOINED "x")).1
        = runOps demoOps4 := by
  have h := C4_broadcast_no_prune (runOps demoOps4) 0 "general" (ServerMessage.USER_JOINED "x")
  exact ⟨h.1, h.2.1⟩

/-- The room-restricted store after a successful send, before the trim:
the old room history with the new message appended. -/
theorem roomMsgs_append (s : State) (c : Conn) (roomId content : String) :
    roomMsgs { s with store := s.store ++ [newMsg s c roomId content],
                      nextId := s.nextId + 1 } roomId
      = roomMsgs s roomId ++ [newMsg s c roomId content] := by
  unfold roomMsgs
  rw [List.filter_append]
  simp [newMsg]

/-- C5: Retention bound — after every successful SEND_MESSAGE to an
existing room the store holds at most 50 messages for that room, and
when the room already held exactly 50 the oldest one is deleted, leaving
exactly the 50 most recent (the previous history minus its head, plus
the new message). -/
theorem C5_retention (s : State) (hs : Reachable s) (ws : Nat) (c : Conn)
    (roomId content : String) (room : RoomRec)
    (hc : assocLookup s.conns ws = some c) (hr : c.roomId = some roomId)
    (_hroom : s.dbRooms.find? (fun rm => decide (rm.id = roomId)) = some room)
    (hct : jsTrim content ≠ "") :
    ((roomMsgs (sendMessage s ws content).1 roomId).length ≤ 50) ∧
    ((roomMsgs s roomId).length = 50 →
      roomMsgs (sendMessage s ws content).1 roomId =
        (roomMsgs s roomId).drop 1 ++ [newMsg s c roomId content]) := by
  have h := wf_reachable s hs
  have hne : roomId ≠ "" := by
    intro hh
    exact absurd (hh ▸ hr) (h.connRoomNe ws c hc)
  rw [sendMessage_success s ws content c roomId hc hr hne hct]
  have hsorted1 : (s.store ++ [newMsg s c roomId content]).Pairwise
      (fun a b => a.id < b.id ∧ a.createdAt < b.createdAt) := by
    apply List.pairwise_append.mpr
    refine ⟨h.storeSorted, List.pairwise_singleton _ _, ?_⟩
    intro a ha b hb
    rw [List.mem_singleton] at hb
    subst hb
    exact ⟨(h.storeBound a ha).1, (h.storeBound a ha).2⟩
  have hcl := cleanup_roomMsgs
    { s with store := s.store ++ [newMsg s c roomId content], nextId := s.nextId + 1 }
    roomId hsorted1
  rw [roomMsgs_append s c roomId content] at hcl
  rw [hcl]
  constructor
  · rw [List.length_drop]
    rw [List.length_append]
    simp only [List.length_singleton]
    omega
  · intro h50
    rw [List.length_append, h50]
    simp only [List.length_singleton]
    have hd : (50 + 1 - 50) = 1 := by omega
    rw [hd]
    rw [List.drop_append_of_le_length (by omega)]

/-- Witness for C5 at a concrete reachable state. -/
theorem C5_witness :
    (roomMsgs (sendMessage (runOps demoOps) 0 "hi").1 "general").length ≤ 50 ∧
    ((roomMsgs (runOps demoOps) "general").length = 50 →
      roomMsgs (sendMessage (runOps demoOps) 0 "hi").1 "general" =
        (roomMsgs (runOps demoOps) "general").drop 1 ++
          [newMsg (runOps demoOps) { userId := "u0", username := "alice", roomId := some "general" }
            "general" "hi"]) :=
  C5_retention (runOps demoOps) (reachable_runOps demoOps) 0
    { userId := "u0", username := "alice", roomId := some "general" } "general" "hi"
    { id := "general", creatorId := "u0" } (by decide) (by decide) (by decide) (by decide)

/-- C6: Round-trip — a successful join to a room whose history holds
k ≤ 50 messages emits to the joiner a ROOM_JOINED frame carrying exactly
those k messages, in creation order (strictly increasing `createdAt`,
oldest first). -/
theorem C6_join_roundtrip (s : State) (hs : Reachable s) (ws : Nat) (c : Conn)
    (roomId : String) (room : RoomRec)
    (hc : assocLookup s.conns ws = some c)
    (hf : s.dbRooms.find? (fun rm => decide (rm.id = roomId)) = some room)
    (hk : (roomMsgs s roomId).length ≤ 50) :
    (ws, ServerMessage.ROOM_JOINED roomId ((roomMsgs s roomId).map Msg.toData))
        ∈ (joinRoom s ws roomId).2 ∧
    ((roomMsgs s roomId).map Msg.toData).Pairwise
      (fun a b => a.createdAt < b.createdAt) := by
  have h := wf_reachable s hs
  have hchron : ((roomMsgs s roomId).map Msg.toData).Pairwise
      (fun a b => a.createdAt < b.createdAt) := by
    apply List.pairwise_map.mpr
    exact (h.storeSorted.sublist (List.filter_sublist s.store)).imp (fun hab => hab.2)
  have hhist : ∀ t : State, t.store = s.store → WF t →
      ((messagesDesc t roomId).take 50).reverse.map Msg.toData
        = (roomMsgs s roomId).map Msg.toData := by
    intro t hts hwf
    rw [messagesDesc_congr t s roomId hts]
    rw [messagesDesc_eq_reverse s roomId h.storeSorted]
    rw [List.take_of_length_le (by rw [List.length_reverse]; exact hk)]
    rw [List.reverse_reverse]
  refine ⟨?_, hchron⟩
  cases ht : truthy c.roomId with
  | false =>
    rw [joinRoom_success_out s ws roomId c room hc ht hf]
    rw [hhist s rfl h]
    exact List.mem_cons_self _ _
  | true =>
    rw [joinRoom_success_in s ws roomId c room hc ht hf]
    rw [hhist (leaveRoom s ws).1 (leaveRoom_fields s ws).1 (leaveRoom_wf s ws h)]
    apply List.mem_append_right
    exact List.mem_cons_self _ _

/-- Witness for C6 at a concrete reachable state. -/
theorem C6_witness :
    (2, ServerMessage.ROOM_JOINED "general"
        ((roomMsgs (runOps demoOps3) "general").map Msg.toData))
      ∈ (joinRoom (runOps demoOps3) 2 "general").2 ∧
    ((roomMsgs (runOps demoOps3) "general").map Msg.toData).Pairwise
      (fun a b => a.createdAt < b.createdAt) :=
  C6_join_roundtrip (runOps demoOps3) (reachable_runOps demoOps3) 2
    { userId := "u2", username := "carol", roomId := none } "general"
    { id := "general", creatorId := "u0" } (by decide) (by decide) (by decide)

/-- C7: Broadcast targeting — a successful SEND_MESSAGE delivers
NEW_MESSAGE to every current member of the room, the sender included
(the sender is a member), while a successful join by an unjoined
connection delivers USER_JOINED exactly to the previous members — none
when the room was empty. -/
theorem C7_broadcast_targeting (s : State) (hs : Reachable s) :
    (∀ ws c roomId content, assocLookup s.conns ws = some c → c.roomId = some roomId →
      jsTrim content ≠ "" →
      (sendMessage s ws content).2 =
        (roomMembers s roomId).map
          (fun x => (x, ServerMessage.NEW_MESSAGE (newMsg s c roomId content).toData)) ∧
      ws ∈ roomMembers s roomId) ∧
    (∀ ws c roomId room, assocLookup s.conns ws = some c → c.roomId = none →
      s.dbRooms.find? (fun rm => decide (rm.id = roomId)) = some room →
      (joinRoom s ws roomId).2 =
        (ws, ServerMessage.ROOM_JOINED roomId
            (((messagesDesc s roomId).take 50).reverse.map Msg.toData)) ::
          (roomMembers s roomId).map (fun x => (x, ServerMessage.USER_JOINED c.username))) := by
  have h := wf_reachable s hs
  constructor
  · intro ws c roomId content hc hr hct
    have hne : roomId ≠ "" := by
      intro hh
      exact absurd (hh ▸ hr) (h.connRoomNe ws c hc)
    rw [sendMessage_success s ws content c roomId hc hr hne hct]
    refine ⟨rfl, ?_⟩
    obtain ⟨ms, hms, hin⟩ := h.roomLink ws c roomId hc hr
    rw [roomMembers, hms]
    exact hin
  · intro ws c roomId room hc hr hf
    have ht : truthy c.roomId = false := by rw [hr]; rfl
    rw [joinRoom_success_out s ws roomId c room hc ht hf]
    have hnm : ws ∉ roomMembers s roomId := by
      intro hin
      cases hms : assocLookup s.roomConnections roomId with
      | none =>
        rw [roomMembers, hms] at hin
        exact absurd hin (List.not_mem_nil ws)
      | some ms =>
        rw [roomMembers, hms] at hin
        exact wf_not_member s h ws (by rw [connCurrentRoom, hc]; simp [hr]) roomId ms hms hin
    have hset : setAdd (roomMembers s roomId) ws = roomMembers s roomId ++ [ws] := by
      unfold setAdd
      rw [if_neg hnm]
    rw [hset, List.filter_append]
    have h1 : (roomMembers s roomId).filter (fun x => decide (x ≠ ws))
        = roomMembers s roomId := by
      apply List.filter_eq_self.mpr
      intro x hx
      simp only [decide_eq_true_eq]
      intro hh
      subst hh
      exact hnm hx
    have h2 : ([ws].filter (fun x => decide (x ≠ ws))) = [] := by simp
    rw [h1, h2, List.append_nil]

/-- Witness for C7 at a concrete reachable state: alice sends "hi" to
"general" with bob present, and carol joins "general". -/
theorem C7_witness :
    ((sendMessage (runOps demoOps3) 0 "hi").2 =
        (roomMembers (runOps demoOps3) "general").map
          (fun x => (x, ServerMessage.NEW_MESSAGE
            (newMsg (runOps demoOps3)
              { userId := "u0", username := "alice", roomId := some "general" }
              "general" "hi").toData)) ∧
      0 ∈ roomMembers (runOps demoOps3) "general") ∧
    (joinRoom (runOps demoOps3) 2 "general").2 =
      (2, ServerMessage.ROOM_JOINED "general"
          (((messagesDesc (runOps demoOps3) "general").take 50).reverse.map Msg.toData)) ::
        (roomMembers (runOps demoOps3) "general").map
          (fun x => (x, ServerMessage.USER_JOINED "carol")) := by
  have h := C7_broadcast_targeting (runOps demoOps3) (reachable_runOps demoOps3)
  exact ⟨h.1 0 { userId := "u0", username := "alice", roomId := some "general" }
      "general" "hi" (by decide) (by decide) (by decide),
    h.2 2 { userId := "u2", username := "carol", roomId := none } "general"
      { id := "general", creatorId := "u0" } (by decide) (by decide) (by decide)⟩

/-- C8: SEND_MESSAGE error atomicity — an unjoined sender gets
`ERROR{"Not in a room"}` and a sender of whitespace-only content gets
`ERROR{"Message cannot be empty"}`; in both cases the returned state is
exactly the old state (nothing persisted, registry untouched) and the
error is the only emission. -/
theorem C8_send_errors (s : State) (hs : Reachable s) (ws : Nat) (c : Conn)
    (content : String) (hc : assocLookup s.conns ws = some c) :
    (c.roomId = none →
      sendMessage s ws content = (s, [(ws, ServerMessage.ERROR "Not in a room")])) ∧
    (∀ roomId, c.roomId = some roomId → jsTrim content = "" →
      sendMessage s ws content = (s, [(ws, ServerMessage.ERROR "Message cannot be empty")])) := by
  have h := wf_reachable s hs
  constructor
  · intro hr
    exact sendMessage_notIn s ws content c hc hr
  · intro roomId hr hct
    have hne : roomId ≠ "" := by
      intro hh
      exact absurd (hh ▸ hr) (h.connRoomNe ws c hc)
    exact sendMessage_empty s ws content c roomId hc hr hne hct

/-- Witness for C8 at a concrete reachable state: unjoined carol sends
"hi", and joined alice sends whitespace. -/
theorem C8_witness :
    sendMessage (runOps demoOps3) 2 "hi"
        = (runOps demoOps3, [(2, ServerMessage.ERROR "Not in a room")]) ∧
    sendMessage (runOps demoOps3) 0 "   "
        = (runOps demoOps3, [(0, ServerMessage.ERROR "Message cannot be empty")]) := by
  refine ⟨?_, ?_⟩
  · exact (C8_send_errors (runOps demoOps3) (reachable_runOps demoOps3) 2
      { userId := "u2", username := "carol", roomId := none } "hi" (by decide)).1 (by decide)
  · exact (C8_send_errors (runOps demoOps3) (reachable_runOps demoOps3) 0
      { userId := "u0", username := "alice", roomId := some "general" } "   " (by decide)).2
      "general" (by decide) (by decide)

end Chat
